import Mathlib

/-!
Verification model of the salt-cloud EC2 driver (`saltcloud/clouds/ec2.py`).

The Python module talks to the AWS query API: it signs requests (legacy
SignatureVersion 2 and SigV4), decodes XML responses into nested
dict/list values, and drives instance lifecycle operations (create,
destroy, tag, security-group rules) as parameter-dictionary builders over
one dispatcher, `query`.

This file shallowly embeds the functions those behaviors live in:
byte-level SHA-256/HMAC/base64/hex/urlencode primitives (the Python code
uses `hashlib`, `hmac`, `binascii` and `urllib` for these),
`_xml_to_dict`, the signing paths of `query`, `_getSignatureKey`,
`_parse_str_parameters` / `_parse_ip_permissions` / `create_ingress_rule`,
the `Tag.N` / `SecurityGroup.N` parameter loops of `set_tags`, `del_tags`
and `create`, the polling loops of `create` / `__query_ip_address`,
`show_term_protect` / `destroy`, and `_deref_securitygroupname`.
Effectful functions are embedded as pure functions over explicit response
oracles, returning the list of issued requests together with the result.
-/

namespace EC2

/-! ## Bytes and characters

Byte strings are `List Nat` with every entry below 256; 32-bit words are
`Nat` reduced modulo 2^32 after every arithmetic step. -/

abbrev Bytes := List Nat

/-- UTF-8 encoding of one character (what Python's `str.encode('utf-8')`
does per code point). -/
def charUtf8 (c : Char) : Bytes :=
  let n := c.toNat
  if n < 128 then [n]
  else if n < 2048 then [192 ||| (n >>> 6), 128 ||| (n &&& 63)]
  else if n < 65536 then
    [224 ||| (n >>> 12), 128 ||| ((n >>> 6) &&& 63), 128 ||| (n &&& 63)]
  else
    [240 ||| (n >>> 18), 128 ||| ((n >>> 12) &&& 63),
     128 ||| ((n >>> 6) &&& 63), 128 ||| (n &&& 63)]

/-- The UTF-8 bytes of a string. -/
def strBytes (s : String) : Bytes := s.data.flatMap charUtf8

/-! ## SHA-256 (FIPS 180-4), as used by Python's `hashlib.sha256` -/

/-- Truncate to a 32-bit word. -/
def w32 (n : Nat) : Nat := n % 4294967296

/-- Right-rotation of a 32-bit word. -/
def rotr (n x : Nat) : Nat := w32 ((x >>> n) ||| (x <<< (32 - n)))

/-- Bitwise complement of a 32-bit word. -/
def wnot (x : Nat) : Nat := x ^^^ 4294967295

def bSig0 (x : Nat) : Nat := rotr 2 x ^^^ rotr 13 x ^^^ rotr 22 x
def bSig1 (x : Nat) : Nat := rotr 6 x ^^^ rotr 11 x ^^^ rotr 25 x
def sSig0 (x : Nat) : Nat := rotr 7 x ^^^ rotr 18 x ^^^ (x >>> 3)
def sSig1 (x : Nat) : Nat := rotr 17 x ^^^ rotr 19 x ^^^ (x >>> 10)

/-- The 64 SHA-256 round constants. -/
def shaK : List Nat :=
  [1116352408, 1899447441, 3049323471, 3921009573,
   961987163, 1508970993, 2453635748, 2870763221,
   3624381080, 310598401, 607225278, 1426881987,
   1925078388, 2162078206, 2614888103, 3248222580,
   3835390401, 4022224774, 264347078, 604807628,
   770255983, 1249150122, 1555081692, 1996064986,
   2554220882, 2821834349, 2952996808, 3210313671,
   3336571891, 3584528711, 113926993, 338241895,
   666307205, 773529912, 1294757372, 1396182291,
   1695183700, 1986661051, 2177026350, 2456956037,
   2730485921, 2820302411, 3259730800, 3345764771,
   3516065817, 3600352804, 4094571909, 275423344,
   430227734, 506948616, 659060556, 883997877,
   958139571, 1322822218, 1537002063, 1747873779,
   1955562222, 2024104815, 2227730452, 2361852424,
   2428436474, 2756734187, 3204031479, 3329325298]

/-- The SHA-256 initial hash value. -/
def shaH0 : List Nat :=
  [1779033703, 3144134277, 1013904242, 2773480762,
   1359893119, 2600822924, 528734635, 1541459225]

/-- A natural number as 8 big-endian bytes (the length field of the
SHA-256 padding). -/
def be64 (n : Nat) : Bytes :=
  [(n >>> 56) &&& 255, (n >>> 48) &&& 255, (n >>> 40) &&& 255,
   (n >>> 32) &&& 255, (n >>> 24) &&& 255, (n >>> 16) &&& 255,
   (n >>> 8) &&& 255, n &&& 255]

/-- A 32-bit word as 4 big-endian bytes. -/
def be32 (n : Nat) : Bytes :=
  [(n >>> 24) &&& 255, (n >>> 16) &&& 255, (n >>> 8) &&& 255, n &&& 255]

/-- Groups of 4 big-endian bytes as 32-bit words. -/
def bytesToWords : Bytes → List Nat
  | b0 :: b1 :: b2 :: b3 :: rest =>
    (b0 * 16777216 + b1 * 65536 + b2 * 256 + b3) :: bytesToWords rest
  | _ => []

/-- Extend the 16 message words to the 64-entry schedule, one word per
step. -/
def schedGo : Nat → List Nat → List Nat
  | 0, ws => ws
  | n + 1, ws =>
    let l := ws.length
    let next := w32 (sSig1 (ws.getD (l - 2) 0) + ws.getD (l - 7) 0 +
      sSig0 (ws.getD (l - 15) 0) + ws.getD (l - 16) 0)
    schedGo n (ws ++ [next])

def schedule (ws : List Nat) : List Nat := schedGo 48 ws

/-- The eight working variables of the compression function. -/
structure ShaState where
  a : Nat
  b : Nat
  c : Nat
  d : Nat
  e : Nat
  f : Nat
  g : Nat
  h : Nat

/-- One SHA-256 round. -/
def shaRound (s : ShaState) (kw : Nat × Nat) : ShaState :=
  let t1 := w32 (s.h + bSig1 s.e + ((s.e &&& s.f) ^^^ (wnot s.e &&& s.g)) +
    kw.1 + kw.2)
  let t2 := w32 (bSig0 s.a + ((s.a &&& s.b) ^^^ (s.a &&& s.c) ^^^ (s.b &&& s.c)))
  ⟨w32 (t1 + t2), s.a, s.b, s.c, w32 (s.d + t1), s.e, s.f, s.g⟩

/-- Compress one 64-byte block into the running hash value. -/
def compressBlock (hv : List Nat) (block : Bytes) : List Nat :=
  let ws := schedule (bytesToWords block)
  let s0 : ShaState :=
    ⟨hv.getD 0 0, hv.getD 1 0, hv.getD 2 0, hv.getD 3 0,
     hv.getD 4 0, hv.getD 5 0, hv.getD 6 0, hv.getD 7 0⟩
  let s := (shaK.zip ws).foldl shaRound s0
  [w32 (hv.getD 0 0 + s.a), w32 (hv.getD 1 0 + s.b), w32 (hv.getD 2 0 + s.c),
   w32 (hv.getD 3 0 + s.d), w32 (hv.getD 4 0 + s.e), w32 (hv.getD 5 0 + s.f),
   w32 (hv.getD 6 0 + s.g), w32 (hv.getD 7 0 + s.h)]

/-- Split into 64-byte blocks (fuel-driven so the definition is
kernel-reducible). -/
def chunksGo : Nat → Bytes → List Bytes
  | 0, _ => []
  | _ + 1, [] => []
  | fuel + 1, l => l.take 64 :: chunksGo fuel (l.drop 64)

/-- SHA-256 of a byte string. -/
def sha256 (msg : Bytes) : Bytes :=
  let z := (64 - ((msg.length + 9) % 64)) % 64
  let padded := msg ++ 128 :: List.replicate z 0 ++ be64 (8 * msg.length)
  let blocks := chunksGo padded.length padded
  (blocks.foldl compressBlock shaH0).flatMap be32

/-- HMAC-SHA256 (RFC 2104, block size 64), as used by Python's
`hmac.new(key, msg, hashlib.sha256)`. -/
def hmacSha256 (key msg : Bytes) : Bytes :=
  let k0 := if 64 < key.length then sha256 key else key
  let k := k0 ++ List.replicate (64 - k0.length) 0
  let ipad := k.map (fun b => b ^^^ 54)
  let opad := k.map (fun b => b ^^^ 92)
  sha256 (opad ++ sha256 (ipad ++ msg))

/-! ## Hex digests and base64 -/

/-- The lowercase hex alphabet. -/
def hexLowerTable : List Char := "0123456789abcdef".data

def hexUpperTable : List Char := "0123456789ABCDEF".data

def hexLowerChar (n : Nat) : Char := hexLowerTable.getD (n % 16) '0'

def hexUpperChar (n : Nat) : Char := hexUpperTable.getD (n % 16) '0'

/-- `hexdigest()`: each byte as two lowercase hex characters. -/
def hexDigest (bs : Bytes) : String :=
  String.mk (bs.flatMap (fun b => [hexLowerChar (b / 16), hexLowerChar b]))

/-- The base64 alphabet. -/
def b64Table : List Char :=
  "ABCDEFGHIJKLMNOPQRSTUVWXYZabcdefghijklmnopqrstuvwxyz0123456789+/".data

def b64Char (n : Nat) : Char := b64Table.getD (n % 64) 'A'

def base64Go : Nat → Bytes → List Char
  | 0, _ => []
  | _ + 1, [] => []
  | _ + 1, [b1] =>
    [b64Char (b1 >>> 2), b64Char ((b1 &&& 3) <<< 4), '=', '=']
  | _ + 1, [b1, b2] =>
    [b64Char (b1 >>> 2), b64Char (((b1 &&& 3) <<< 4) ||| (b2 >>> 4)),
     b64Char ((b2 &&& 15) <<< 2), '=']
  | fuel + 1, b1 :: b2 :: b3 :: rest =>
    b64Char (b1 >>> 2) :: b64Char (((b1 &&& 3) <<< 4) ||| (b2 >>> 4)) ::
    b64Char (((b2 &&& 15) <<< 2) ||| (b3 >>> 6)) :: b64Char (b3 &&& 63) ::
    base64Go fuel rest

/-- Base64 of a byte string (Python's `binascii.b2a_base64(...).strip()`:
the standard encoding with the trailing newline removed). -/
def base64Encode (bs : Bytes) : String := String.mk (base64Go bs.length bs)

/-! ## Python 2 `urllib` percent-encoding -/

/-- Bytes Python's `urllib.quote` leaves unescaped: ASCII letters, digits
and `_ . -`. -/
def alwaysSafe (b : Nat) : Bool :=
  (48 ≤ b && b ≤ 57) || (65 ≤ b && b ≤ 90) || (97 ≤ b && b ≤ 122) ||
  b == 95 || b == 46 || b == 45

/-- One byte under `urllib.quote_plus`: safe bytes kept, space becomes
`+`, everything else percent-escaped with uppercase hex. -/
def quotePlusByte (b : Nat) : List Char :=
  if b == 32 then ['+']
  else if alwaysSafe b then [Char.ofNat b]
  else ['%', hexUpperChar (b / 16), hexUpperChar b]

/-- `urllib.quote_plus` of a string. -/
def quotePlus (s : String) : String :=
  String.mk ((strBytes s).flatMap quotePlusByte)

/-- `urllib.urlencode` over an explicit pair list:
`quote_plus(k)=quote_plus(v)` joined with `&`. -/
def urlencode (ps : List (String × String)) : String :=
  String.intercalate "&" (ps.map (fun p => quotePlus p.1 ++ "=" ++ quotePlus p.2))

/-! ## Python dict on string keys, as an insertion-ordered association list -/

/-- First value stored under a key (`d[k]` / `d.get(k)`). -/
def lookupStr (d : List (String × String)) (k : String) : Option String :=
  match d with
  | [] => none
  | (k', v) :: rest => if k' = k then some v else lookupStr rest k

/-- Key membership (`k in d`). -/
def dictHasKey (d : List (String × String)) (k : String) : Bool :=
  (lookupStr d k).isSome

/-- Python dict assignment `d[k] = v`: replace in place if the key is
present, append otherwise. -/
def dictSet (d : List (String × String)) (k v : String) : List (String × String) :=
  if dictHasKey d k then d.map (fun p => if p.1 = k then (k, v) else p)
  else d ++ [(k, v)]

/-! ## XML trees and `_xml_to_dict` -/

/-- An `xml.etree.ElementTree` element: tag, optional text, child list. -/
inductive XmlTree where
  | node (tag : String) (text : Option String) (children : List XmlTree)

def XmlTree.tag : XmlTree → String
  | .node t _ _ => t

def XmlTree.txt : XmlTree → Option String
  | .node _ x _ => x

def XmlTree.children : XmlTree → List XmlTree
  | .node _ _ cs => cs

/-- The decoded value space: leaf text (`element.text`, possibly `None`),
a dict, or the list a repeated tag collapses into. -/
inductive Node where
  | text : Option String → Node
  | map : List (String × Node) → Node
  | list : List Node → Node

/-- `name.split('}')[1] if '}' in name else name`: strip a `{ns}` prefix
from a tag (faithfully taking component index 1 of the split). -/
def splitChar (sep : Char) (cs : List Char) : List (List Char) :=
  match cs with
  | [] => [[]]
  | c :: rest =>
    let r := splitChar sep rest
    if c = sep then [] :: r
    else
      match r with
      | [] => [[c]]
      | h :: t => (c :: h) :: t

def stripNs (name : String) : String :=
  if name.data.contains '}' then
    String.mk ((splitChar '}' name.data).getD 1 [])
  else name

/-- First value stored under a key in a decoded dict. -/
def lookupNode (d : List (String × Node)) (k : String) : Option Node :=
  match d with
  | [] => none
  | (k', v) :: rest => if k' = k then some v else lookupNode rest k

/-- Replace the value stored under a key, in place. -/
def updateNode (d : List (String × Node)) (k : String) (v : Node) :
    List (String × Node) :=
  d.map (fun p => if p.1 = k then (k, v) else p)

/-- The repeated-tag coercion of `_xml_to_dict`: a non-list value becomes
a two-element list, a list gets the new element appended. -/
def appendNode (old new : Node) : Node :=
  match old with
  | .list xs => .list (xs ++ [new])
  | _ => .list [old, new]

mutual

/-- `_xml_to_dict(xmltree)`: an element without children decodes to
`{tag: text}`; one with children folds them into a dict, first
occurrence of a tag stored directly (text for a leaf, recursive dict
otherwise), repeated occurrences collapsed into a list by appending the
full `_xml_to_dict` of each later occurrence. -/
def xmlToDict : XmlTree → Node
  | .node tag text [] => .map [(stripNs tag, .text text)]
  | .node _ _ (c :: cs) => .map (xmlFold [] (c :: cs))

/-- The `for item in xmltree` loop body of `_xml_to_dict`, folding
children into the accumulated dict. -/
def xmlFold (d : List (String × Node)) : List XmlTree → List (String × Node)
  | [] => d
  | item :: rest =>
    let name := stripNs item.tag
    match lookupNode d name with
    | none =>
      let v := if item.children.isEmpty then Node.text item.txt else xmlToDict item
      xmlFold (d ++ [(name, v)]) rest
    | some old => xmlFold (updateNode d name (appendNode old (xmlToDict item))) rest

end

/-! ## Equality test for decoded values

`deriving DecidableEq` is not available for this nested inductive, so
the instance is built from a mutually recursive boolean comparison. -/

mutual

def Node.beq : Node → Node → Bool
  | .text a, .text b => a == b
  | .map a, .map b => Node.beqPairs a b
  | .list a, .list b => Node.beqList a b
  | _, _ => false

def Node.beqPairs : List (String × Node) → List (String × Node) → Bool
  | [], [] => true
  | (k, v) :: r, (k', v') :: r' => k == k' && Node.beq v v' && Node.beqPairs r r'
  | _, _ => false

def Node.beqList : List Node → List Node → Bool
  | [], [] => true
  | a :: r, b :: r' => Node.beq a b && Node.beqList r r'
  | _, _ => false

end

mutual

theorem Node.beq_iff : ∀ a b : Node, Node.beq a b = true ↔ a = b
  | .text _, .text _ => by simp [Node.beq]
  | .text _, .map _ => by simp [Node.beq]
  | .text _, .list _ => by simp [Node.beq]
  | .map _, .text _ => by simp [Node.beq]
  | .map a, .map b => by simp [Node.beq, Node.beqPairs_iff a b]
  | .map _, .list _ => by simp [Node.beq]
  | .list _, .text _ => by simp [Node.beq]
  | .list _, .map _ => by simp [Node.beq]
  | .list a, .list b => by simp [Node.beq, Node.beqList_iff a b]

theorem Node.beqPairs_iff :
    ∀ a b : List (String × Node), Node.beqPairs a b = true ↔ a = b
  | [], [] => by simp [Node.beqPairs]
  | [], _ :: _ => by simp [Node.beqPairs]
  | _ :: _, [] => by simp [Node.beqPairs]
  | (k, v) :: r, (k', v') :: r' => by
    simp [Node.beqPairs, Node.beq_iff v v', Node.beqPairs_iff r r', and_assoc]

theorem Node.beqList_iff : ∀ a b : List Node, Node.beqList a b = true ↔ a = b
  | [], [] => by simp [Node.beqList]
  | [], _ :: _ => by simp [Node.beqList]
  | _ :: _, [] => by simp [Node.beqList]
  | a :: r, b :: r' => by
    simp [Node.beqList, Node.beq_iff a b, Node.beqList_iff r r']

end

instance : DecidableEq Node := fun a b =>
  decidable_of_iff (Node.beq a b = true) (Node.beq_iff a b)

/-! ## The signer -/

/-- `_sign(key, msg)`: HMAC-SHA256 digest of the UTF-8 message under a
byte key. -/
def sign (key : Bytes) (msg : String) : Bytes := hmacSha256 key (strBytes msg)

/-- `_getSignatureKey(key, dateStamp, regionName, serviceName)`: the
SigV4 signing-key derivation. -/
def getSignatureKey (key dateStamp regionName serviceName : String) : Bytes :=
  let kDate := sign (strBytes ("AWS4" ++ key)) dateStamp
  let kRegion := sign kDate regionName
  let kService := sign kRegion serviceName
  let kSigning := sign kService "aws4_request"
  kSigning

/-- The SigV4 request signature computed by `query` (line 330 of the
source): lowercase-hex HMAC-SHA256 of the string-to-sign under the
derived signing key. -/
def sigV4Signature (secretKey dateStamp region service stringToSign : String) :
    String :=
  hexDigest (hmacSha256 (getSignatureKey secretKey dateStamp region service)
    (strBytes stringToSign))

/-- `sorted(params.keys())`. -/
def sortedKeys (params : List (String × String)) : List String :=
  List.insertionSort (· ≤ ·) (params.map Prod.fst)

/-- `zip(sorted(params.keys()), map(params.get, keys))`: the parameter
pairs in sorted-key order. -/
def sortedPairs (params : List (String × String)) : List (String × String) :=
  (sortedKeys params).map (fun k => (k, (lookupStr params k).getD ""))

/-- The legacy canonical string
`'{0}\n{1}\n/\n{2}'.format(method, endpoint, querystring)` with the
query string urlencoded from the sorted parameters. -/
def legacyCanonical (endpoint : String) (params : List (String × String)) :
    String :=
  "GET" ++ "\n" ++ endpoint ++ "\n" ++ "/" ++ "\n" ++ urlencode (sortedPairs params)

/-- The legacy (SignatureVersion 2) signature: base64 of the HMAC-SHA256
digest of the canonical string under the provider secret key
(`binascii.b2a_base64(hashed.digest()).strip()`). -/
def legacySignature (secret : Bytes) (endpoint : String)
    (params : List (String × String)) : String :=
  base64Encode (hmacSha256 secret (strBytes (legacyCanonical endpoint params)))

/-- The fields the legacy signing path of `query` (lines 336-338) adds
to the params before signing. -/
def legacyFullParams (accessId timestamp : String)
    (params : List (String × String)) : List (String × String) :=
  dictSet (dictSet (dictSet params "AWSAccessKeyId" accessId)
    "SignatureMethod" "HmacSHA256") "Timestamp" timestamp

/-- The legacy signing path of `query` (lines 336-350): add
`AWSAccessKeyId`, `SignatureMethod` and `Timestamp` to the params, then
sign the canonical string built from the result. -/
def legacyQuerySignature (accessId : String) (secret : Bytes)
    (endpoint timestamp : String) (params : List (String × String)) : String :=
  legacySignature secret endpoint (legacyFullParams accessId timestamp params)

/-! ## Decimal rendering of the indices `'{0}'.format(idx)` interpolates -/

def decTable : List Char := "0123456789".data

def digitChar (n : Nat) : Char := decTable.getD (n % 10) '0'

def natStrAux : Nat → Nat → List Char → List Char
  | 0, _, acc => acc
  | fuel + 1, n, acc =>
    if n < 10 then digitChar n :: acc
    else natStrAux fuel (n / 10) (digitChar n :: acc)

/-- A natural number in decimal. -/
def natStr (n : Nat) : String := String.mk (natStrAux (n + 1) n [])

/-! ## The response half of `query` (lines 355-402) -/

/-- What the HTTP transport did: a parsed success body, or a parsed
error body from a non-2xx response (`urllib2.URLError`). -/
inductive TransportResult where
  | success (root : XmlTree)
  | failure (errorBody : XmlTree)

/-- What `query` hands back: the `{'error': ...}` wrapper, or the list
of decoded child records. -/
inductive QueryRet where
  | errorRet (data : Node)
  | records (items : List Node)
deriving DecidableEq

/-- The `setname` scan (lines 384-393): walk the root's children, keep
the last whose namespace-stripped tag (`tag.split('}')[1]`, an
IndexError — modelled as `none` — when the tag has no `}`) equals
`setname`. -/
def setnameScan (setname : String) : List XmlTree → XmlTree → Option XmlTree
  | [], acc => some acc
  | c :: cs, acc =>
    match (splitChar '}' c.tag.data).get? 1 with
    | none => none
    | some comp =>
      setnameScan setname cs (if String.mk comp = setname then c else acc)

/-- The receive path of `query`: on transport failure return
`{'error': _xml_to_dict(body)}` (with the request url when asked for);
on success take `root[1]` (the whole root under `return_root`), narrow by
`setname`, and decode each child of the result element. `none` models
the Python exceptions the success path can raise (IndexError on a root
with fewer than two children or on a namespace-less tag during the
scan). -/
def queryReceive (tr : TransportResult) (setname : Option String)
    (returnRoot returnUrl : Bool) (requesturl : String) :
    Option (QueryRet × Option String) :=
  match tr with
  | .failure body =>
    some (.errorRet (.map [("error", xmlToDict body)]),
      if returnUrl then some requesturl else none)
  | .success root =>
    match root.children.get? 1 with
    | none => none
    | some second =>
      let items0 := if returnRoot then root else second
      let items? :=
        match setname with
        | none => some items0
        | some sn => setnameScan sn root.children items0
      match items? with
      | none => none
      | some items =>
        some (.records (items.children.map xmlToDict),
          if returnUrl then some requesturl else none)

/-! ## The parameter-building half of `query` (lines 244-353), with the
dicts living in an explicit store so that mutation is observable -/

/-- A heap of dicts; references are indices. -/
structure Store where
  dicts : List (List (String × String))

def Store.get (s : Store) (r : Nat) : List (String × String) := s.dicts.getD r []

/-- Allocate a fresh dict (`params.copy()` allocates a new one). -/
def Store.alloc (s : Store) (d : List (String × String)) : Store × Nat :=
  (⟨s.dicts ++ [d]⟩, s.dicts.length)

/-- `params[k] = v` on the dict behind a reference. -/
def Store.write (s : Store) (r : Nat) (k v : String) : Store :=
  ⟨s.dicts.set r (dictSet (s.get r) k v)⟩

/-- The `endpoint_provider` argument of `query`. -/
inductive EndpointProvider where
  | ec2
  | elb
  | redshift
  | iam
  | other
deriving DecidableEq

/-- The parameter-building phase of `query`: skipped entirely when a
`requesturl` is supplied; otherwise copy the caller's params
(line 259), add `Version` and `SignatureVersion`, apply the
per-endpoint-provider overrides, and on the legacy path add
`AWSAccessKeyId`, `SignatureMethod`, `Timestamp` and `Signature` — all
writes going to the copy. Returns the store and the reference to the
internal copy (if one was made). -/
def queryBuildParams (s : Store) (callerRef : Nat) (requestUrlGiven : Bool)
    (ep : EndpointProvider) (accessId : String) (secret : Bytes)
    (endpoint timestamp : String) : Store × Option Nat :=
  if requestUrlGiven then (s, none)
  else
    let (s1, r) := s.alloc (s.get callerRef)
    let s2 := (s1.write r "Version" "2014-10-01").write r "SignatureVersion" "2"
    let s3 :=
      match ep with
      | .elb => s2.write r "Version" "2012-06-01"
      | .redshift =>
        (s2.write r "Version" "2012-12-01").write r "SignatureVersion" "4"
      | .iam => s2.write r "Version" "2010-05-08"
      | _ => s2
    if lookupStr (s3.get r) "SignatureVersion" = some "4" then (s3, some r)
    else
      let s4 := ((s3.write r "AWSAccessKeyId" accessId).write r
        "SignatureMethod" "HmacSHA256").write r "Timestamp" timestamp
      let s5 := s4.write r "Signature"
        (legacySignature secret endpoint (s4.get r))
      (s5, some r)

/-! ## Security-group rule parsing (`_parse_str_parameters`,
`_parse_ip_permissions`, `create_ingress_rule`) -/

/-- One `a=1` fragment: `val.split('=')` must give exactly two parts for
`dict(...)` to accept it. -/
def kvOfSplit : List (List Char) → Option (String × String)
  | [k, v] => some (String.mk k, String.mk v)
  | _ => none

/-- Build a dict from parsed pairs (later duplicates overwrite). -/
def buildDict (ps : List (String × String)) : List (String × String) :=
  ps.foldl (fun d p => dictSet d p.1 p.2) []

/-- `_parse_str_parameters`: `'a=1,b=2;c=3,d=4'` to a list of dicts.
`none` models the ValueError `dict(val.split('=') ...)` raises on a
malformed fragment. -/
def parseStrParameters (params : String) : Option (List (List (String × String))) :=
  ((splitChar ';' params.data).mapM
    (fun p => (splitChar ',' p).mapM (fun v => kvOfSplit (splitChar '=' v)))).map
    (List.map buildDict)

/-- One optional field of a rule: `if field in rule:` copy it into the
params under the given flattened key. -/
def setOpt (rule p : List (String × String)) (field key : String) :
    List (String × String) :=
  match lookupStr rule field with
  | some v => dictSet p key v
  | none => p

/-- The per-rule body of `_parse_ip_permissions`, with `i` the 1-based
`index+1` used in the emitted keys: `protocol` is required (`none`
models the `return False` path), the other fields are copied when
present, in the source's order. -/
def emitRule (i : Nat) (rule : List (String × String))
    (params : List (String × String)) : Option (List (String × String)) :=
  match lookupStr rule "protocol" with
  | none => none
  | some proto =>
    let pre := "IpPermissions." ++ natStr i
    some (setOpt rule (setOpt rule (setOpt rule (setOpt rule (setOpt rule
      (setOpt rule
        (dictSet params (pre ++ ".IpProtocol") proto)
        "from-port" (pre ++ ".FromPort"))
        "to-port" (pre ++ ".ToPort"))
        "ip-range" (pre ++ ".IpRanges.1.CidrIp"))
        "group-name" (pre ++ ".Groups.1.GroupName"))
        "group-id" (pre ++ ".Groups.1.GroupId"))
        "user-id" (pre ++ ".Groups.1.UserId"))

/-- The `for index in range(0, len(rules))` loop, carried with the
1-based key index. -/
def emitRules (i : Nat) (rules : List (List (String × String)))
    (params : List (String × String)) : Option (List (String × String)) :=
  match rules with
  | [] => some params
  | r :: rest =>
    match emitRule i r params with
    | none => none
    | some p => emitRules (i + 1) rest p

/-- `_parse_ip_permissions(kwargs, params)` for the CLI path where
`kwargs['rules']` is a string (a missing `rules` key or a rule without
`protocol` is the `return False` path; a malformed string raises in
`_parse_str_parameters` — both are `none` here). -/
def parseIpPermissions (kwargs params : List (String × String)) :
    Option (List (String × String)) :=
  match lookupStr kwargs "rules" with
  | none => none
  | some rulesStr =>
    match parseStrParameters rulesStr with
    | none => none
    | some rules => emitRules 1 rules params

/-- The request parameters `create_ingress_rule` assembles: the action,
`GroupId` (or `GroupName`), then the flattened `IpPermissions.*`
entries. -/
def createIngressRuleParams (kwargs : List (String × String)) :
    Option (List (String × String)) :=
  let base := [("Action", "AuthorizeSecurityGroupIngress")]
  match lookupStr kwargs "group-id" with
  | some gid => parseIpPermissions kwargs (dictSet base "GroupId" gid)
  | none =>
    match lookupStr kwargs "group-name" with
    | some gname => parseIpPermissions kwargs (dictSet base "GroupName" gname)
    | none => none

/-! ## Indexed parameter flattening (`set_tags`, `del_tags`, `create`) -/

/-- The params `set_tags` builds (lines 1372-1379): `Action`,
`ResourceId.1`, then `Tag.{idx}.Key` / `Tag.{idx}.Value` with `idx`
running over `enumerate(tags.iteritems())`, i.e. from 0. -/
def setTagsParams (instanceId : String) (tags : List (String × String)) :
    List (String × String) :=
  tags.enum.foldl
    (fun p it =>
      dictSet (dictSet p ("Tag." ++ natStr it.1 ++ ".Key") it.2.1)
        ("Tag." ++ natStr it.1 ++ ".Value") it.2.2)
    [("Action", "CreateTags"), ("ResourceId.1", instanceId)]

/-- The params `del_tags` builds (lines 1457-1461): `Action`,
`ResourceId.1`, then `Tag.{idx}.Key` over
`enumerate(kwargs['tags'].split(','))`, i.e. from 0. -/
def delTagsParams (instanceId tagsCsv : String) : List (String × String) :=
  ((splitChar ',' tagsCsv.data).map String.mk).enum.foldl
    (fun p it => dictSet p ("Tag." ++ natStr it.1 ++ ".Key") it.2)
    [("Action", "DeleteTags"), ("ResourceId.1", instanceId)]

/-- A `securitygroup`/`securitygroupid` configuration value: a single
string or a list. -/
inductive StrOrList where
  | one (s : String)
  | many (l : List String)
deriving DecidableEq

/-- The security-group fragment of `create` (lines 854-876, for both the
`SecurityGroup` and `SecurityGroupId` key bases): a single value goes to
`{base}.1`, a list is enumerated from 0 into `{base}.{counter}`. -/
def createSecurityGroupParams (base : String)
    (params : List (String × String)) (sg : Option StrOrList) :
    List (String × String) :=
  match sg with
  | none => params
  | some (.one s) => dictSet params (base ++ ".1") s
  | some (.many l) =>
    l.enum.foldl
      (fun p cs => dictSet p (base ++ "." ++ natStr cs.1) cs.2)
      params

/-! ## The polling loops of `create` (lines 975-1006) and
`__query_ip_address` (lines 1008-1038) -/

/-- Classification of one `query` result inside the descriptor poll. -/
inductive DescResult where
  | errorDict
  | emptyList
  | ok
deriving DecidableEq

inductive PollOutcome where
  | success
  | fatalRaise
deriving DecidableEq

/-- The descriptor-poll loop: `attempts` starts at 5; a failed query
decrements it and sleeps `5 * (5 - attempts)` seconds (with the already
decremented value); a good query breaks; the loop running out is the
`while`'s `else`, which raises `SaltCloudSystemExit`. Returns the
`(remaining_attempts, slept_delay)` pairs in order and the outcome. -/
def descriptorPoll (results : Nat → DescResult) :
    Nat → Nat → List (Nat × Nat) × PollOutcome
  | 0, _ => ([], .fatalRaise)
  | attempts + 1, i =>
    match results i with
    | .ok => ([], .success)
    | _ =>
      let remaining := attempts
      let delay := 5 * (5 - remaining)
      let (tr, out) := descriptorPoll results attempts (i + 1)
      ((remaining, delay) :: tr, out)

/-- Classification of one `query` result inside the IP-address poll. -/
inductive IpResult where
  | emptyData
  | errorDict
  | hasAddress
  | noAddress
deriving DecidableEq

inductive IpOutcome where
  | returnedData
  | returnedFalse
  | spin
deriving DecidableEq

/-- The `__query_ip_address` loop: same 5-attempt budget and
`5 * (5 - attempts)` post-decrement sleep on empty or error responses; a
response carrying `ipAddress` or `privateIpAddress` returns the data;
one with neither loops again **without** decrementing (`fuel` bounds
that repetition so the model stays total — `spin` marks fuel running
out); exhausting the budget falls out of the loop and returns `False`. -/
def ipAddressPoll (results : Nat → IpResult) :
    Nat → Nat → Nat → List (Nat × Nat) × IpOutcome
  | 0, _, _ => ([], .spin)
  | _ + 1, 0, _ => ([], .returnedFalse)
  | fuel + 1, attempts + 1, i =>
    match results i with
    | .hasAddress => ([], .returnedData)
    | .noAddress => ipAddressPoll results fuel (attempts + 1) (i + 1)
    | _ =>
      let remaining := attempts
      let delay := 5 * (5 - remaining)
      let (tr, out) := ipAddressPoll results fuel attempts (i + 1)
      ((remaining, delay) :: tr, out)

/-! ## Request traces for `show_term_protect`, `set_tags` and `destroy`

A request is the params dict handed to `query`; an oracle maps the
serial number of each issued query to its decoded response (a list of
flat dicts, which is all these callers inspect). `_get_node`, whose
retry loop issues only `DescribeInstances` queries, is abstracted as the
number of such queries it took. -/

abbrev Request := List (String × String)

abbrev Oracle := Nat → List (List (String × String))

def requestAction (r : Request) : Option String := lookupStr r "Action"

/-- Requests whose `Action` is `TerminateInstances`. -/
def countTerminate (tr : List Request) : Nat :=
  (tr.filter (fun r => requestAction r == some "TerminateInstances")).length

/-- The `DescribeInstances` queries `_get_node`'s attempts issue. -/
def getNodeRequests (m : Nat) : List Request :=
  List.replicate m [("Action", "DescribeInstances")]

/-- The `for item in result: if 'value' in item: ...; break` scan of
`show_term_protect`; `none` is the `disable_protect = False` default. -/
def scanValueKey (resp : List (List (String × String))) : Option String :=
  match resp with
  | [] => none
  | item :: rest =>
    match lookupStr item "value" with
    | some v => some v
    | none => scanValueKey rest

/-- The `DescribeInstanceAttribute` request of `show_term_protect`. -/
def describeAttrRequest (instanceId : String) : Request :=
  [("Action", "DescribeInstanceAttribute"), ("InstanceId", instanceId),
   ("Attribute", "disableApiTermination")]

/-- The `DescribeTags` request of `get_tags`. -/
def getTagsParams (instanceId : String) : Request :=
  [("Action", "DescribeTags"), ("Filter.1.Name", "resource-id"),
   ("Filter.1.Value", instanceId)]

/-- The read-back verification of `set_tags` (lines 1391-1400): some
returned tag we were setting came back with the wrong value. -/
def tagCheckFailed (settags : List (List (String × String)))
    (tags : List (String × String)) : Bool :=
  settags.any (fun tag =>
    let k := (lookupStr tag "key").getD ""
    dictHasKey tags k && lookupStr tags k != some ((lookupStr tag "value").getD ""))

/-- The verify-and-retry loop of `set_tags` (lines 1381-1415):
`attempts` starts at 5 and the loop runs `while attempts >= 0`, so the
fuel is 6; each iteration issues the `CreateTags` query and `get_tags`'s
`DescribeTags` query, and a clean read-back returns; falling out raises
`SaltCloudSystemExit` (`.error`). Returns (requests, next oracle index,
result). -/
def setTagsLoop (o : Oracle) (instanceId : String)
    (tags : List (String × String)) :
    Nat → Nat → List Request × Nat × Except Unit (List (List (String × String)))
  | 0, k => ([], k, .error ())
  | fuel + 1, k =>
    if tagCheckFailed (o (k + 1)) tags then
      (setTagsParams instanceId tags :: getTagsParams instanceId ::
          (setTagsLoop o instanceId tags fuel (k + 2)).1,
        (setTagsLoop o instanceId tags fuel (k + 2)).2)
    else
      ([setTagsParams instanceId tags, getTagsParams instanceId], k + 2,
        .ok (o (k + 1)))

/-- `destroy(name)` (lines 1490-1536) as a request trace: look the node
up (`lookupCount` `DescribeInstances` queries), read the
termination-protection attribute, refuse fatally (`.error`) when it is
`'true'`, otherwise optionally rename (`rename` resolves the node again
— `renameLookupCount` queries — then runs the `set_tags` loop on the
`Name` tag with the `-DEL{uuid}` suffix), then issue the single
`TerminateInstances` request. -/
def destroyModel (o : Oracle) (instanceId name : String)
    (renameOnDestroy : Bool) (newSuffix : String)
    (lookupCount renameLookupCount : Nat) :
    List Request × Except Unit (List (String × String)) :=
  let trLookup := getNodeRequests lookupCount
  let k0 := lookupCount
  if scanValueKey (o k0) = some "true" then
    (trLookup ++ [describeAttrRequest instanceId], .error ())
  else
    let newname := name ++ "-DEL" ++ newSuffix
    let renameRun :
        List Request × Nat × Except Unit (List (List (String × String))) :=
      if renameOnDestroy then
        (getNodeRequests renameLookupCount ++
            (setTagsLoop o instanceId [("Name", newname)] 6
              (k0 + 1 + renameLookupCount)).1,
          (setTagsLoop o instanceId [("Name", newname)] 6
            (k0 + 1 + renameLookupCount)).2)
      else ([], k0 + 1, .ok [])
    match renameRun.2.2 with
    | .error e =>
      (trLookup ++ [describeAttrRequest instanceId] ++ renameRun.1, .error e)
    | .ok _ =>
      let reqTerm : Request :=
        [("Action", "TerminateInstances"), ("InstanceId.1", instanceId)]
      let ret0 : List (String × String) :=
        if renameOnDestroy then [("newname", newname)] else []
      let ret := ((o renameRun.2.1).headD []).foldl
        (fun d p => dictSet d p.1 p.2) ret0
      (trLookup ++ [describeAttrRequest instanceId] ++ renameRun.1 ++ [reqTerm],
        .ok ret)

/-! ## `_get_vpcname` and `_deref_securitygroupname` -/

inductive DerefError where
  | pyError
  | notFound
deriving DecidableEq

/-- One tag of the VPC tag set: `tag['item']['key'] == 'Name'` selects
`tag['item']['value']`; missing keys are Python errors; a key other than
`'Name'` (or of a non-text shape, where the `==` is simply false) selects
nothing. -/
def vpcTagName (dt : List (String × Node)) : Except DerefError (Option Node) :=
  match lookupNode dt "item" with
  | some (.map di) =>
    match lookupNode di "key" with
    | some k =>
      if k = Node.text (some "Name") then
        match lookupNode di "value" with
        | some v => .ok (some v)
        | none => .error .pyError
      else .ok none
    | none => .error .pyError
  | some _ => .error .pyError
  | none => .error .pyError

/-- Scan a list-shaped tag set in order; fall through to `None`. -/
def scanVpcTags : List Node → Except DerefError (Option Node)
  | [] => .ok none
  | tag :: rest =>
    match tag with
    | .map dt =>
      match vpcTagName dt with
      | .error e => .error e
      | .ok (some v) => .ok (some v)
      | .ok none => scanVpcTags rest
    | _ => .error .pyError

/-- `_get_vpcname(vpc_data)` (lines 750-759): reach
`vpc_data[1]['item']['tagSet']`, then read the `Name` tag out of either
a single tag dict or a list of them; `ok none` is the `return None`
fall-through, `.error .pyError` the IndexError/KeyError/TypeError cases. -/
def getVpcName (vpcData : List Node) : Except DerefError (Option Node) :=
  match vpcData.get? 1 with
  | some (.map d1) =>
    match lookupNode d1 "item" with
    | some (.map d2) =>
      match lookupNode d2 "tagSet" with
      | some (.list ts) => scanVpcTags ts
      | some (.map dt) => vpcTagName dt
      | some _ => .error .pyError
      | none => .error .pyError
    | some _ => .error .pyError
    | none => .error .pyError
  | some _ => .error .pyError
  | none => .error .pyError

/-- `_deref_securitygroupname(sg_name, vm_)` (lines 782-798), with the
two `query` responses supplied as oracles: resolve the VPC name, then
look for `sg_data[1]['item']['groupId']`; a response whose second
element has no `'item'` key raises `SaltCloudException`
(`.error .notFound`). -/
def derefSecurityGroupName (vpcResp sgResp : List Node) :
    Except DerefError String :=
  match getVpcName vpcResp with
  | .error e => .error e
  | .ok _ =>
    match sgResp.get? 1 with
    | some (.map d) =>
      match lookupNode d "item" with
      | some (.map di) =>
        match lookupNode di "groupId" with
        | some (.text (some gid)) => .ok gid
        | some _ => .error .pyError
        | none => .error .pyError
      | some _ => .error .pyError
      | none => .error .notFound
    | some _ => .error .pyError
    | none => .error .pyError

/-- The `'item' in sg_data[1]` test: the second element of the
security-group response, when it is a dict holding that key. -/
def sgItem (sgResp : List Node) : Option Node :=
  match sgResp.get? 1 with
  | some (.map d) => lookupNode d "item"
  | _ => none

/-! ## Characterizing the dict `_xml_to_dict` builds

`childDecode` is how a child is stored on first sight (leaf text, or the
recursive dict); `actualVal`/`actualDict` describe the finished dict:
tags are keyed in first-occurrence order, a tag seen once maps to its
`childDecode`, and a repeated tag maps to the list of its first
occurrence's `childDecode` followed by the full `_xml_to_dict` of every
later occurrence. `claimedVal`/`claimedDict` instead follow the claim's
words — a repeated tag collecting the `childDecode` of *every*
occurrence — for comparison. -/

/-- How `_xml_to_dict` stores a first-seen child. -/
def childDecode (t : XmlTree) : Node :=
  if t.children.isEmpty then Node.text t.txt else xmlToDict t

/-- The namespace-stripped tags of a child list. -/
def stripTags (items : List XmlTree) : List String :=
  items.map (fun t => stripNs t.tag)

/-- The occurrences of a tag among the children, in document order. -/
def occs (k : String) (items : List XmlTree) : List XmlTree :=
  items.filter (fun t => stripNs t.tag == k)

/-- Distinct strings in first-occurrence order. -/
def firstKeysGo (seen : List String) : List String → List String
  | [] => []
  | k :: rest =>
    if seen.contains k then firstKeysGo seen rest
    else k :: firstKeysGo (seen ++ [k]) rest

def firstKeys (l : List String) : List String := firstKeysGo [] l

/-- What the code stores under a tag, given its occurrence list. -/
def actualVal (os : List XmlTree) : Node :=
  match os with
  | [] => Node.text none
  | [o] => childDecode o
  | o :: rest => Node.list (childDecode o :: rest.map xmlToDict)

/-- The finished dict of `_xml_to_dict` over a child list. -/
def actualDict (items : List XmlTree) : List (String × Node) :=
  (firstKeys (stripTags items)).map (fun k => (k, actualVal (occs k items)))

/-- From the claim's words: a repeated tag maps to the sequence of the
decoded value of every occurrence. -/
def claimedVal (os : List XmlTree) : Node :=
  match os with
  | [o] => childDecode o
  | _ => Node.list (os.map childDecode)

/-- From the claim's words: the mapping the claim says decoding yields. -/
def claimedDict (items : List XmlTree) : List (String × Node) :=
  (firstKeys (stripTags items)).map (fun k => (k, claimedVal (occs k items)))

/-! # Helper lemmas -/

theorem hexLowerChar_mem (n : Nat) : hexLowerChar n ∈ hexLowerTable := by
  have h : n % 16 < hexLowerTable.length := by
    have h16 : hexLowerTable.length = 16 := by decide
    have : n % 16 < 16 := Nat.mod_lt _ (by decide)
    omega
  rw [hexLowerChar, List.getD_eq_getElem _ _ h]
  exact List.getElem_mem h

theorem hexDigest_chars (bs : Bytes) :
    (hexDigest bs).data.all (fun c => hexLowerTable.contains c) = true := by
  simp only [hexDigest, List.all_eq_true]
  intro c hc
  simp only [List.mem_flatMap, List.mem_cons, List.not_mem_nil, or_false] at hc
  obtain ⟨b, _, hb⟩ := hc
  rcases hb with h | h <;> subst h <;>
    simpa [List.contains_iff_exists_mem_beq] using hexLowerChar_mem _

/-! # Claim theorems -/

/-- C1: for every secret key, date stamp, region and service, the SigV4
signing key equals the four-link chain
HMAC(HMAC(HMAC(HMAC('AWS4'+secret, date), region), service),
'aws4_request'), as a pure function of those arguments, and the request
signature is the lowercase-hex HMAC-SHA256 digest of the string-to-sign
under that derived key. -/
theorem sigv4_key_chain_and_signature
    (secret dateStamp region service stringToSign : String) :
    getSignatureKey secret dateStamp region service =
      hmacSha256 (hmacSha256 (hmacSha256 (hmacSha256
            (strBytes ("AWS4" ++ secret)) (strBytes dateStamp))
          (strBytes region)) (strBytes service)) (strBytes "aws4_request") ∧
    sigV4Signature secret dateStamp region service stringToSign =
      hexDigest (hmacSha256 (getSignatureKey secret dateStamp region service)
        (strBytes stringToSign)) ∧
    (sigV4Signature secret dateStamp region service stringToSign).data.all
      (fun c => hexLowerTable.contains c) = true :=
  ⟨rfl, rfl, hexDigest_chars _⟩

/-- C6: when the transport reports an error status, `query` returns the
decoded error body wrapped as `{'error': ...}` — paired with the request
URL exactly when `return_url` is requested — for every `setname`,
`return_root` and `return_url` combination; the error path never raises. -/
theorem query_transport_error_returns_error_dict (body : XmlTree)
    (setname : Option String) (returnRoot returnUrl : Bool) (url : String) :
    queryReceive (.failure body) setname returnRoot returnUrl url =
      some (.errorRet (.map [("error", xmlToDict body)]),
        if returnUrl then some url else none) := rfl

theorem descriptorPoll_delay (results : Nat → DescResult) :
    ∀ a i p, p ∈ (descriptorPoll results a i).1 → p.2 = 5 * (5 - p.1) := by
  intro a
  induction a with
  | zero => intro i p hp; simp [descriptorPoll] at hp
  | succ n ih =>
    intro i p hp
    rw [descriptorPoll] at hp
    split at hp
    · simp at hp
    · simp at hp
      rcases hp with h | h
      · rw [h]
      · exact ih (i + 1) p h

theorem ipAddressPoll_delay (results : Nat → IpResult) :
    ∀ fuel a i p, p ∈ (ipAddressPoll results fuel a i).1 → p.2 = 5 * (5 - p.1) := by
  intro fuel
  induction fuel with
  | zero => intro a i p hp; simp [ipAddressPoll] at hp
  | succ n ih =>
    intro a i p hp
    match a with
    | 0 => simp [ipAddressPoll] at hp
    | a + 1 =>
      rw [ipAddressPoll] at hp
      split at hp
      · simp at hp
      · exact ih (a + 1) (i + 1) p hp
      · simp at hp
        rcases hp with h | h
        · rw [h]
        · exact ih a (i + 1) p h

/-- C4 (counterexample): in the all-failures descriptor poll the sleeps
actually recorded for remaining-attempt counts 4, 3, 2, 1, 0 are
5, 10, 15, 20, 25 seconds — not the 5*4, 5*3, 5*2, 5*1, 5*0 the claim
enumerates. -/
theorem polling_backoff_counterexample :
    (descriptorPoll (fun _ => .errorDict) 5 0).1 =
      [(4, 5), (3, 10), (2, 15), (1, 20), (0, 25)] ∧
    (descriptorPoll (fun _ => .errorDict) 5 0).1 ≠
      [(4, 5 * 4), (3, 5 * 3), (2, 5 * 2), (1, 5 * 1), (0, 5 * 0)] := by
  constructor <;> decide

/-- C4 (amended): in both 5-attempt polling phases every sleep after a
failed attempt follows the code's `5 * (5 - remaining_attempts)` with the
already decremented remaining count, so the delays for remaining counts
4, 3, 2, 1, 0 are 5, 10, 15, 20, 25 seconds (increasing, not the
decreasing 5*4..5*0 sequence); exhausting the descriptor poll raises the
fatal VM-creation failure, and exhausting the address poll returns the
failure sentinel `False` that its caller escalates fatally. -/
theorem polling_backoff_formula (results : Nat → DescResult)
    (ipResults : Nat → IpResult) (fuel : Nat) :
    (∀ p, p ∈ (descriptorPoll results 5 0).1 → p.2 = 5 * (5 - p.1)) ∧
    (∀ p, p ∈ (ipAddressPoll ipResults fuel 5 0).1 → p.2 = 5 * (5 - p.1)) ∧
    descriptorPoll (fun _ => .errorDict) 5 0 =
      ([(4, 5), (3, 10), (2, 15), (1, 20), (0, 25)], .fatalRaise) ∧
    ipAddressPoll (fun _ => .errorDict) 10 5 0 =
      ([(4, 5), (3, 10), (2, 15), (1, 20), (0, 25)], .returnedFalse) :=
  ⟨fun p hp => descriptorPoll_delay results 5 0 p hp,
   fun p hp => ipAddressPoll_delay ipResults fuel 5 0 p hp,
   by decide, by decide⟩

/-- Witness for `polling_backoff_formula` at a concrete run: its
per-element hypotheses discharged on the first recorded pair. -/
theorem polling_backoff_formula_witness :
    (4, 5) ∈ (descriptorPoll (fun _ => DescResult.errorDict) 5 0).1 ∧
    (5 : Nat) = 5 * (5 - 4) := by
  constructor
  · decide
  · exact (polling_backoff_formula (fun _ => DescResult.errorDict)
      (fun _ => IpResult.errorDict) 10).1 (4, 5) (by decide)

theorem lookupStr_append (d1 d2 : List (String × String)) (q : String) :
    lookupStr (d1 ++ d2) q =
      match lookupStr d1 q with
      | some v => some v
      | none => lookupStr d2 q := by
  induction d1 with
  | nil => simp [lookupStr]
  | cons p rest ih =>
    by_cases hp : p.1 = q <;> simp [lookupStr, hp, ih]

theorem lookupStr_replace_self (d : List (String × String)) (k v : String)
    (h : dictHasKey d k = true) :
    lookupStr (d.map (fun p => if p.1 = k then (k, v) else p)) k = some v := by
  induction d with
  | nil => simp [dictHasKey, lookupStr] at h
  | cons p rest ih =>
    by_cases hp : p.1 = k
    · rw [List.map_cons, if_pos hp]
      simp [lookupStr]
    · have h' : dictHasKey rest k = true := by
        simpa [dictHasKey, lookupStr, hp] using h
      rw [List.map_cons, if_neg hp]
      simp only [lookupStr, if_neg hp]
      exact ih h'

theorem lookupStr_replace_ne (d : List (String × String)) (k v q : String)
    (h : k ≠ q) :
    lookupStr (d.map (fun p => if p.1 = k then (k, v) else p)) q =
      lookupStr d q := by
  induction d with
  | nil => simp [lookupStr]
  | cons p rest ih =>
    by_cases hp : p.1 = k
    · rw [List.map_cons, if_pos hp]
      have hq : ¬p.1 = q := fun hc => h (hp ▸ hc)
      simp only [lookupStr, if_neg h, if_neg hq]
      exact ih
    · rw [List.map_cons, if_neg hp]
      by_cases hq : p.1 = q
      · simp [lookupStr, hq]
      · simp only [lookupStr, if_neg hq]
        exact ih

theorem lookupStr_dictSet_self (d : List (String × String)) (k v : String) :
    lookupStr (dictSet d k v) k = some v := by
  rw [dictSet]
  split
  · exact lookupStr_replace_self d k v (by assumption)
  · rename_i h
    have hnone : lookupStr d k = none := by
      rcases hk : lookupStr d k with _ | v'
      · rfl
      · exact absurd (by simp [dictHasKey, hk]) h
    rw [lookupStr_append, hnone]
    simp [lookupStr]

theorem lookupStr_dictSet_ne (d : List (String × String)) (k v q : String)
    (h : k ≠ q) : lookupStr (dictSet d k v) q = lookupStr d q := by
  rw [dictSet]
  split
  · exact lookupStr_replace_ne d k v q h
  · rw [lookupStr_append]
    rcases hq : lookupStr d q with _ | v'
    · simp [lookupStr, h]
    · rfl

theorem natStrAux_length (fuel : Nat) :
    ∀ n acc, 0 < fuel → acc.length + 1 ≤ (natStrAux fuel n acc).length := by
  induction fuel with
  | zero => intro n acc h; omega
  | succ m ih =>
    intro n acc _
    rw [natStrAux]
    split
    · simp
    · rcases Nat.eq_zero_or_pos m with hm | hm
      · subst hm; simp [natStrAux]
      · have := ih (n / 10) (digitChar n :: acc) hm
        simp only [List.length_cons] at this
        omega

theorem natStr_ne_zero (n : Nat) (h : 0 < n) : natStr n ≠ "0" := by
  by_cases h10 : n < 10
  · interval_cases n <;> decide
  · intro he
    have hlen := congrArg (fun s => s.data.length) he
    rw [natStr] at hlen
    simp only [natStrAux, h10, if_false] at hlen
    have := natStrAux_length n (n / 10) [digitChar n] (by omega)
    simp only [List.length_cons, List.length_nil] at this hlen
    simp at hlen
    omega

/-- Keys ending in `.Value` never collide with keys ending in `.Key`. -/
theorem value_key_ne (a b : String) : (a ++ ".Value") ≠ (b ++ ".Key") := by
  intro h
  have h2 := congrArg (fun s => s.data.getLast?) h
  simp [String.data_append] at h2

/-- Cancel a shared one-piece suffix after a shared prefix. -/
theorem tag_key_ne_of_ne (s t mid : String) (h : s ≠ t) :
    ("Tag." ++ s ++ mid) ≠ ("Tag." ++ t ++ mid) := by
  intro he
  apply h
  have h2 := congrArg String.data he
  simp only [String.data_append] at h2
  exact String.ext (List.append_cancel_left (List.append_cancel_right h2))

theorem tag_ne_action (s t : String) : ("Tag." ++ s ++ t) ≠ "Action" := by
  intro h
  have h2 := congrArg String.data h
  simp [String.data_append] at h2

theorem tag_ne_resource (s t : String) : ("Tag." ++ s ++ t) ≠ "ResourceId.1" := by
  intro h
  have h2 := congrArg String.data h
  simp [String.data_append] at h2

theorem base_idx_ne (base s t : String) (h : s ≠ t) :
    (base ++ "." ++ s) ≠ (base ++ "." ++ t) := by
  intro he
  apply h
  have h2 := congrArg String.data he
  rw [String.data_append, String.data_append] at h2
  exact String.ext (List.append_cancel_left h2)

theorem splitChar_ne_nil (sep : Char) (cs : List Char) : splitChar sep cs ≠ [] := by
  match cs with
  | [] => simp [splitChar]
  | c :: rest =>
    rw [splitChar]
    split
    · simp
    · split <;> simp

/-- Preservation of a lookup across the `Tag.{idx}` fold of `set_tags`,
when none of the written keys is the one looked up. -/
theorem lookupStr_setTagsFold (l : List (Nat × (String × String)))
    (q : String)
    (h : ∀ it ∈ l, ("Tag." ++ natStr it.1 ++ ".Key") ≠ q ∧
      ("Tag." ++ natStr it.1 ++ ".Value") ≠ q) :
    ∀ d, lookupStr
      (l.foldl (fun p it =>
        dictSet (dictSet p ("Tag." ++ natStr it.1 ++ ".Key") it.2.1)
          ("Tag." ++ natStr it.1 ++ ".Value") it.2.2) d) q = lookupStr d q := by
  induction l with
  | nil => intro d; rfl
  | cons it rest ih =>
    intro d
    have hit := h it (by simp)
    have hrest : ∀ x ∈ rest, ("Tag." ++ natStr x.1 ++ ".Key") ≠ q ∧
        ("Tag." ++ natStr x.1 ++ ".Value") ≠ q :=
      fun x hx => h x (by simp [hx])
    rw [List.foldl_cons, ih hrest,
      lookupStr_dictSet_ne _ _ _ _ hit.2, lookupStr_dictSet_ne _ _ _ _ hit.1]

/-- Preservation of a lookup across the `Tag.{idx}.Key` fold of
`del_tags`. -/
theorem lookupStr_delTagsFold (l : List (Nat × String)) (q : String)
    (h : ∀ it ∈ l, ("Tag." ++ natStr it.1 ++ ".Key") ≠ q) :
    ∀ d, lookupStr
      (l.foldl (fun p it => dictSet p ("Tag." ++ natStr it.1 ++ ".Key") it.2) d)
      q = lookupStr d q := by
  induction l with
  | nil => intro d; rfl
  | cons x rest ih =>
    intro d
    have hx := h x (by simp)
    have hrest : ∀ y ∈ rest, ("Tag." ++ natStr y.1 ++ ".Key") ≠ q :=
      fun y hy => h y (by simp [hy])
    rw [List.foldl_cons, ih hrest, lookupStr_dictSet_ne _ _ _ _ hx]

/-- Preservation of a lookup across the `{base}.{counter}` fold of
`create`'s security-group assembly. -/
theorem lookupStr_sgFold (base : String) (l : List (Nat × String)) (q : String)
    (h : ∀ it ∈ l, (base ++ "." ++ natStr it.1) ≠ q) :
    ∀ d, lookupStr
      (l.foldl (fun p cs => dictSet p (base ++ "." ++ natStr cs.1) cs.2) d) q =
      lookupStr d q := by
  induction l with
  | nil => intro d; rfl
  | cons x rest ih =>
    intro d
    have hx := h x (by simp)
    have hrest : ∀ y ∈ rest, (base ++ "." ++ natStr y.1) ≠ q :=
      fun y hy => h y (by simp [hy])
    rw [List.foldl_cons, ih hrest, lookupStr_dictSet_ne _ _ _ _ hx]

/-- Elements of `enumFrom 1` carry indices of at least 1. -/
theorem enumFrom_one_le {β : Type} (l : List β) :
    ∀ x ∈ l.enumFrom 1, 1 ≤ x.1 := by
  rw [List.forall_mem_enumFrom]
  intro i _
  simp

/-- C9 (counterexample): for the one-entry tag mapping
`{'Name': 'vm1'}`, `set_tags` emits no `Tag.1.Key` at all — the first
tag lands on `Tag.0.Key`; likewise `del_tags` puts the first tag name on
`Tag.0.Key`, and a two-element security-group list in `create` puts the
first group on `SecurityGroup.0` (index 1 holds the *second* group). -/
theorem one_based_index_counterexample :
    lookupStr (setTagsParams "i-123" [("Name", "vm1")]) "Tag.1.Key" = none ∧
    lookupStr (setTagsParams "i-123" [("Name", "vm1")]) "Tag.0.Key" = some "Name" ∧
    lookupStr (delTagsParams "i-123" "env") "Tag.1.Key" = none ∧
    lookupStr (delTagsParams "i-123" "env") "Tag.0.Key" = some "env" ∧
    lookupStr (createSecurityGroupParams "SecurityGroup"
        [("Action", "RunInstances")] (some (.many ["sg-first", "sg-second"])))
      "SecurityGroup.0" = some "sg-first" ∧
    lookupStr (createSecurityGroupParams "SecurityGroup"
        [("Action", "RunInstances")] (some (.many ["sg-first", "sg-second"])))
      "SecurityGroup.1" = some "sg-second" := by
  refine ⟨?_, ?_, ?_, ?_, ?_, ?_⟩ <;> decide

/-- C9 (amended): the `enumerate`-driven flattening loops are 0-based —
for every non-empty tag mapping `set_tags` emits the first tag under
`Tag.0.Key`/`Tag.0.Value`, `del_tags` emits the first tag name under
`Tag.0.Key`, and `create` emits the first of a security-group *list*
under index 0; only scalar keys (`ResourceId.1`) and the non-list
security-group path (`{base}.1`) are 1-based. -/
theorem flattened_indices_start_at_zero (iid k v : String)
    (tags : List (String × String)) (csv : String)
    (base grp solo : String) (groups : List String)
    (params : List (String × String)) :
    lookupStr (setTagsParams iid ((k, v) :: tags)) "Tag.0.Key" = some k ∧
    lookupStr (setTagsParams iid ((k, v) :: tags)) "Tag.0.Value" = some v ∧
    lookupStr (setTagsParams iid ((k, v) :: tags)) "ResourceId.1" = some iid ∧
    lookupStr (delTagsParams iid csv) "Tag.0.Key" =
      some (String.mk ((splitChar ',' csv.data).getD 0 [])) ∧
    lookupStr
      (createSecurityGroupParams base params (some (.many (grp :: groups))))
      (base ++ "." ++ natStr 0) = some grp ∧
    lookupStr (createSecurityGroupParams base params (some (.one solo)))
      (base ++ ".1") = some solo := by
  have hkey0 : ("Tag." ++ natStr 0 ++ ".Key") = "Tag.0.Key" := by decide
  have hval0 : ("Tag." ++ natStr 0 ++ ".Value") = "Tag.0.Value" := by decide
  have hne0 : ∀ m : Nat, 1 ≤ m → natStr m ≠ natStr 0 := by
    intro m hm
    have h0 : natStr 0 = "0" := by decide
    rw [h0]
    exact natStr_ne_zero m hm
  refine ⟨?_, ?_, ?_, ?_, ?_, ?_⟩
  · simp only [setTagsParams, List.enum_cons, List.foldl_cons]
    rw [lookupStr_setTagsFold (tags.enumFrom 1) "Tag.0.Key" ?hne]
    case hne =>
      intro it hit
      refine ⟨?_, ?_⟩
      · rw [← hkey0]
        exact tag_key_ne_of_ne _ _ _ (hne0 it.1 (enumFrom_one_le tags it hit))
      · rw [← hkey0]
        exact value_key_ne _ _
    have h1 : ("Tag." ++ natStr 0 ++ ".Value") ≠ "Tag.0.Key" := by
      rw [← hkey0]
      exact value_key_ne _ _
    rw [lookupStr_dictSet_ne _ _ _ _ h1, ← hkey0, lookupStr_dictSet_self]
  · simp only [setTagsParams, List.enum_cons, List.foldl_cons]
    rw [lookupStr_setTagsFold (tags.enumFrom 1) "Tag.0.Value" ?hne2]
    case hne2 =>
      intro it hit
      refine ⟨?_, ?_⟩
      · rw [← hval0]
        exact (value_key_ne _ _).symm
      · rw [← hval0]
        exact tag_key_ne_of_ne _ _ _ (hne0 it.1 (enumFrom_one_le tags it hit))
    rw [← hval0, lookupStr_dictSet_self]
  · simp only [setTagsParams, List.enum_cons, List.foldl_cons]
    rw [lookupStr_setTagsFold (tags.enumFrom 1) "ResourceId.1" ?hne3]
    case hne3 =>
      intro it _
      exact ⟨tag_ne_resource _ _, tag_ne_resource _ _⟩
    rw [lookupStr_dictSet_ne _ _ _ _ (tag_ne_resource _ _),
      lookupStr_dictSet_ne _ _ _ _ (tag_ne_resource _ _)]
    simp [lookupStr]
  · rcases hsp : splitChar ',' csv.data with _ | ⟨h0, t0⟩
    · exact absurd hsp (splitChar_ne_nil ',' csv.data)
    simp only [delTagsParams, hsp, List.map_cons, List.enum_cons,
      List.foldl_cons, List.getD_cons_zero]
    rw [lookupStr_delTagsFold ((t0.map String.mk).enumFrom 1) "Tag.0.Key" ?hne4]
    case hne4 =>
      intro it hit
      rw [← hkey0]
      exact tag_key_ne_of_ne _ _ _
        (hne0 it.1 (enumFrom_one_le (t0.map String.mk) it hit))
    rw [← hkey0, lookupStr_dictSet_self]
  · simp only [createSecurityGroupParams, List.enum_cons, List.foldl_cons]
    rw [lookupStr_sgFold base (groups.enumFrom 1) (base ++ "." ++ natStr 0) ?hne5]
    case hne5 =>
      intro it hit
      exact base_idx_ne base _ _ (hne0 it.1 (enumFrom_one_le groups it hit))
    rw [lookupStr_dictSet_self]
  · simp only [createSecurityGroupParams]
    rw [lookupStr_dictSet_self]

theorem Store.get_write_ne (s : Store) (i : Nat) (k v : String) (r : Nat)
    (h : r ≠ i) : (s.write i k v).get r = s.get r := by
  simp [Store.write, Store.get, List.getD, List.getElem?_set_ne (Ne.symm h)]

theorem Store.get_alloc (s : Store) (d : List (String × String)) (r : Nat)
    (h : r < s.dicts.length) : ((s.alloc d).1).get r = s.get r := by
  simp [Store.alloc, Store.get, List.getD, List.getElem?_append, h]

/-- C10: `query` never mutates the caller's parameter dict — all the
signing and versioning fields are written to the internal
`params.copy()`, so after the parameter-building phase the dict behind
the caller's reference is exactly what was passed in (and the internal
reference, when one was made, is a different cell). -/
theorem query_params_not_mutated (s : Store) (callerRef : Nat)
    (requestUrlGiven : Bool) (ep : EndpointProvider) (accessId : String)
    (secret : Bytes) (endpoint timestamp : String)
    (h : callerRef < s.dicts.length) :
    ((queryBuildParams s callerRef requestUrlGiven ep accessId secret endpoint
        timestamp).1).get callerRef = s.get callerRef ∧
    ∀ r, (queryBuildParams s callerRef requestUrlGiven ep accessId secret
        endpoint timestamp).2 = some r → r ≠ callerRef := by
  have hne : callerRef ≠ s.dicts.length := Nat.ne_of_lt h
  rw [queryBuildParams]
  split
  · exact ⟨rfl, by simp⟩
  · constructor
    · cases ep <;>
        simp only [Store.alloc] <;>
        split <;>
        simp only [Store.get_write_ne _ _ _ _ _ hne] <;>
        exact Store.get_alloc s _ callerRef h
    · intro r hr
      cases ep <;>
        simp only [Store.alloc] at hr <;>
        split at hr <;>
        simp only [Option.some.injEq] at hr <;>
        omega

/-- Witness for `query_params_not_mutated` on a one-dict store. -/
theorem query_params_not_mutated_witness :
    0 < (Store.mk [[("Action", "DescribeInstances")]]).dicts.length ∧
    ((queryBuildParams (Store.mk [[("Action", "DescribeInstances")]]) 0 false
        .ec2 "AKID" [1, 2] "ec2.us-east-1.amazonaws.com"
        "2014-01-01T00:00:00Z").1).get 0 =
      (Store.mk [[("Action", "DescribeInstances")]]).get 0 :=
  ⟨by decide,
   (query_params_not_mutated (Store.mk [[("Action", "DescribeInstances")]]) 0
      false .ec2 "AKID" [1, 2] "ec2.us-east-1.amazonaws.com"
      "2014-01-01T00:00:00Z" (by decide)).1⟩

theorem mem_keys_dictSet (d : List (String × String)) (k v : String) :
    ∀ x ∈ (dictSet d k v).map Prod.fst, x ∈ d.map Prod.fst ∨ x = k := by
  intro x hx
  rw [dictSet] at hx
  split at hx
  · simp only [List.map_map, List.mem_map, Function.comp] at hx
    obtain ⟨p, hp, he⟩ := hx
    by_cases hc : p.1 = k
    · rw [if_pos hc] at he
      right
      exact he.symm
    · rw [if_neg hc] at he
      left
      exact List.mem_map.mpr ⟨p, hp, he⟩
  · simp only [List.map_append, List.mem_append, List.map_cons, List.map_nil,
      List.mem_singleton] at hx
    rcases hx with hx | hx
    · left; exact hx
    · right; exact hx

theorem mem_keys_setOpt (rule p : List (String × String)) (field key : String) :
    ∀ x ∈ (setOpt rule p field key).map Prod.fst,
      x ∈ p.map Prod.fst ∨ x = key := by
  intro x hx
  rw [setOpt] at hx
  split at hx
  · exact mem_keys_dictSet _ _ _ x hx
  · left; exact hx

theorem emitRule_keys (i : Nat) (rule params result : List (String × String))
    (h : emitRule i rule params = some result) :
    ∀ x ∈ result.map Prod.fst, x ∈ params.map Prod.fst ∨
      ∃ suffix, x = "IpPermissions." ++ natStr i ++ suffix := by
  rw [emitRule] at h
  split at h
  · exact absurd h (by simp)
  · simp only [Option.some.injEq] at h
    subst h
    intro x hx
    rcases mem_keys_setOpt _ _ _ _ x hx with hx | rfl
    on_goal 2 => exact Or.inr ⟨".Groups.1.UserId", rfl⟩
    rcases mem_keys_setOpt _ _ _ _ x hx with hx | rfl
    on_goal 2 => exact Or.inr ⟨".Groups.1.GroupId", rfl⟩
    rcases mem_keys_setOpt _ _ _ _ x hx with hx | rfl
    on_goal 2 => exact Or.inr ⟨".Groups.1.GroupName", rfl⟩
    rcases mem_keys_setOpt _ _ _ _ x hx with hx | rfl
    on_goal 2 => exact Or.inr ⟨".IpRanges.1.CidrIp", rfl⟩
    rcases mem_keys_setOpt _ _ _ _ x hx with hx | rfl
    on_goal 2 => exact Or.inr ⟨".ToPort", rfl⟩
    rcases mem_keys_setOpt _ _ _ _ x hx with hx | rfl
    on_goal 2 => exact Or.inr ⟨".FromPort", rfl⟩
    rcases mem_keys_dictSet _ _ _ x hx with hx | rfl
    · exact Or.inl hx
    · exact Or.inr ⟨".IpProtocol", rfl⟩

theorem emitRules_keys :
    ∀ (rules : List (List (String × String))) (i : Nat)
      (params result : List (String × String)),
      emitRules i rules params = some result →
      ∀ x ∈ result.map Prod.fst, x ∈ params.map Prod.fst ∨
        ∃ j suffix, i ≤ j ∧ j < i + rules.length ∧
          x = "IpPermissions." ++ natStr j ++ suffix := by
  intro rules
  induction rules with
  | nil =>
    intro i params result h x hx
    rw [emitRules] at h
    simp only [Option.some.injEq] at h
    subst h
    exact Or.inl hx
  | cons r rest ih =>
    intro i params result h x hx
    rw [emitRules] at h
    split at h
    · exact absurd h (by simp)
    · rename_i p hp
      rcases ih (i + 1) p result h x hx with hx' | ⟨j, suffix, hj1, hj2, he⟩
      · rcases emitRule_keys i r params p hp x hx' with hx'' | ⟨suffix, he⟩
        · exact Or.inl hx''
        · exact Or.inr ⟨i, suffix, le_refl i, by simp, he⟩
      · exact Or.inr ⟨j, suffix, by omega, by simp; omega, he⟩

/-- C7: the ingress-rule string
`protocol=tcp,from-port=22,to-port=22,ip-range=0.0.0.0/0` produces
exactly the four flattened `IpPermissions.1.*` parameters (after the
action and group keys); a two-rule string lands on `IpPermissions.1.*`
and `IpPermissions.2.*` in order; and in general every key the rule
loop adds belongs to `IpPermissions.{j}.*` for some 1-based rule index
`j` within the rule count. -/
theorem create_ingress_rule_flattening :
    createIngressRuleParams
        [("group-id", "sg-123"),
         ("rules", "protocol=tcp,from-port=22,to-port=22,ip-range=0.0.0.0/0")] =
      some [("Action", "AuthorizeSecurityGroupIngress"), ("GroupId", "sg-123"),
        ("IpPermissions.1.IpProtocol", "tcp"),
        ("IpPermissions.1.FromPort", "22"),
        ("IpPermissions.1.ToPort", "22"),
        ("IpPermissions.1.IpRanges.1.CidrIp", "0.0.0.0/0")] ∧
    createIngressRuleParams
        [("group-name", "web"),
         ("rules", "protocol=tcp,from-port=80;protocol=udp,to-port=53")] =
      some [("Action", "AuthorizeSecurityGroupIngress"), ("GroupName", "web"),
        ("IpPermissions.1.IpProtocol", "tcp"),
        ("IpPermissions.1.FromPort", "80"),
        ("IpPermissions.2.IpProtocol", "udp"),
        ("IpPermissions.2.ToPort", "53")] ∧
    (∀ (rules : List (List (String × String)))
       (params result : List (String × String)),
      emitRules 1 rules params = some result →
      ∀ x ∈ result.map Prod.fst, x ∈ params.map Prod.fst ∨
        ∃ j suffix, 1 ≤ j ∧ j ≤ rules.length ∧
          x = "IpPermissions." ++ natStr j ++ suffix) := by
  refine ⟨by decide, by decide, ?_⟩
  intro rules params result h x hx
  rcases emitRules_keys rules 1 params result h x hx with
    hx' | ⟨j, suffix, hj1, hj2, he⟩
  · exact Or.inl hx'
  · exact Or.inr ⟨j, suffix, hj1, by omega, he⟩

/-- Witness for `create_ingress_rule_flattening`: its rule-loop
hypotheses discharged on a concrete one-rule run. -/
theorem create_ingress_rule_flattening_witness :
    emitRules 1 [[("protocol", "tcp")]] [] =
      some [("IpPermissions.1.IpProtocol", "tcp")] ∧
    ("IpPermissions.1.IpProtocol" ∈
      ([("IpPermissions.1.IpProtocol", "tcp")] : List (String × String)).map
        Prod.fst) ∧
    ("IpPermissions.1.IpProtocol" ∈
        ([] : List (String × String)).map Prod.fst ∨
      ∃ j suffix, 1 ≤ j ∧ j ≤ 1 ∧
        "IpPermissions.1.IpProtocol" = "IpPermissions." ++ natStr j ++ suffix) :=
  ⟨by decide, by decide,
   create_ingress_rule_flattening.2.2 [[("protocol", "tcp")]] []
     [("IpPermissions.1.IpProtocol", "tcp")] (by decide)
     "IpPermissions.1.IpProtocol" (by decide)⟩

/-- C8: when the tag-based security-group lookup returns a response
whose second element has no `item` key (zero matching resources),
name-to-id resolution raises rather than returning a null or empty id:
the result is an error for every VPC response, and specifically the
NotFound `SaltCloudException` whenever the VPC-name resolution itself
succeeded. -/
theorem deref_securitygroup_not_found (vpcResp sgResp : List Node)
    (d : List (String × Node))
    (h1 : sgResp[1]? = some (Node.map d))
    (h2 : lookupNode d "item" = none) :
    (∃ e, derefSecurityGroupName vpcResp sgResp = .error e) ∧
    (∀ vn, getVpcName vpcResp = .ok vn →
      derefSecurityGroupName vpcResp sgResp = .error .notFound) := by
  constructor
  · rcases hv : getVpcName vpcResp with e | vn
    · exact ⟨e, by simp [derefSecurityGroupName, hv]⟩
    · exact ⟨.notFound, by simp [derefSecurityGroupName, hv, h1, h2]⟩
  · intro vn hv
    simp [derefSecurityGroupName, hv, h1, h2]

/-- Witness for `deref_securitygroup_not_found`: a well-formed VPC
response paired with an empty security-group result set. -/
theorem deref_securitygroup_not_found_witness :
    (([Node.map [("requestId", Node.text (some "r1"))],
        Node.map [("vpcId", Node.text (some "vpc-1"))]] : List Node)[1]? =
      some (Node.map [("vpcId", Node.text (some "vpc-1"))])) ∧
    lookupNode [("vpcId", Node.text (some "vpc-1"))] "item" = none ∧
    (∃ e, derefSecurityGroupName
      [Node.map [("requestId", Node.text (some "r0"))],
       Node.map [("item", Node.map [("tagSet", Node.map [("item",
         Node.map [("key", Node.text (some "Name")),
           ("value", Node.text (some "myvpc"))])])])]]
      [Node.map [("requestId", Node.text (some "r1"))],
       Node.map [("vpcId", Node.text (some "vpc-1"))]] = .error e) :=
  ⟨by decide, by decide,
   (deref_securitygroup_not_found
      [Node.map [("requestId", Node.text (some "r0"))],
       Node.map [("item", Node.map [("tagSet", Node.map [("item",
         Node.map [("key", Node.text (some "Name")),
           ("value", Node.text (some "myvpc"))])])])]]
      [Node.map [("requestId", Node.text (some "r1"))],
       Node.map [("vpcId", Node.text (some "vpc-1"))]]
      [("vpcId", Node.text (some "vpc-1"))] (by decide) (by decide)).1⟩

theorem dictHasKey_iff_mem (d : List (String × String)) (k : String) :
    dictHasKey d k = true ↔ k ∈ d.map Prod.fst := by
  induction d with
  | nil => simp [dictHasKey, lookupStr]
  | cons p rest ih =>
    rw [dictHasKey] at ih
    simp only [dictHasKey, lookupStr, List.map_cons, List.mem_cons]
    by_cases hp : p.1 = k
    · simp [hp]
    · rw [if_neg hp]
      constructor
      · intro hs
        exact Or.inr (ih.mp hs)
      · intro hm
        rcases hm with he | hm
        · exact absurd he.symm hp
        · exact ih.mpr hm

theorem lookupStr_perm (ps1 ps2 : List (String × String))
    (h : List.Perm ps1 ps2) :
    (ps1.map Prod.fst).Nodup → ∀ k, lookupStr ps1 k = lookupStr ps2 k := by
  induction h with
  | nil => intro _ k; rfl
  | cons x h ih =>
    intro hnd k
    rw [List.map_cons] at hnd
    have hnd' := (List.nodup_cons.mp hnd).2
    by_cases hx : x.1 = k <;> simp [lookupStr, hx, ih hnd' k]
  | swap x y l =>
    intro hnd k
    have hxy : y.1 ≠ x.1 := by
      rw [List.map_cons, List.map_cons] at hnd
      have hh := (List.nodup_cons.mp hnd).1
      intro he
      exact hh (he ▸ List.mem_cons_self _ _)
    by_cases hx : x.1 = k <;> by_cases hy : y.1 = k <;>
      simp [lookupStr, hx, hy]
    exact absurd (hy.trans hx.symm) hxy
  | trans h1 h2 ih1 ih2 =>
    intro hnd k
    have hnd2 : _ := ((h1.map Prod.fst).nodup_iff).mp hnd
    rw [ih1 hnd k, ih2 hnd2 k]

theorem keys_dictSet_eq (d : List (String × String)) (k v : String) :
    (dictSet d k v).map Prod.fst =
      if dictHasKey d k then d.map Prod.fst else d.map Prod.fst ++ [k] := by
  rw [dictSet]
  split
  · rw [List.map_map]
    apply List.map_congr_left
    intro p _
    by_cases hp : p.1 = k <;> simp [Function.comp, hp]
  · simp

theorem nodup_keys_dictSet (d : List (String × String)) (k v : String)
    (hnd : (d.map Prod.fst).Nodup) :
    ((dictSet d k v).map Prod.fst).Nodup := by
  rw [keys_dictSet_eq]
  split
  · exact hnd
  · rename_i hc
    have hk : k ∉ d.map Prod.fst := fun hm =>
      hc ((dictHasKey_iff_mem d k).mpr hm)
    simp [List.nodup_append, hnd, hk]

theorem dictSet_perm (ps1 ps2 : List (String × String)) (k v : String)
    (h : List.Perm ps1 ps2) (hnd : (ps1.map Prod.fst).Nodup) :
    List.Perm (dictSet ps1 k v) (dictSet ps2 k v) := by
  have hk : dictHasKey ps2 k = dictHasKey ps1 k := by
    rw [dictHasKey, dictHasKey, lookupStr_perm ps1 ps2 h hnd k]
  rw [dictSet, dictSet, hk]
  by_cases hc : dictHasKey ps1 k = true
  · rw [if_pos hc, if_pos hc]
    exact h.map _
  · rw [if_neg hc, if_neg hc]
    exact h.append_right _

theorem legacyFullParams_perm (accessId timestamp : String)
    (ps1 ps2 : List (String × String)) (h : List.Perm ps1 ps2)
    (hnd : (ps1.map Prod.fst).Nodup) :
    List.Perm (legacyFullParams accessId timestamp ps1)
        (legacyFullParams accessId timestamp ps2) ∧
      ((legacyFullParams accessId timestamp ps1).map Prod.fst).Nodup := by
  have h1 := dictSet_perm ps1 ps2 "AWSAccessKeyId" accessId h hnd
  have hnd1 := nodup_keys_dictSet ps1 "AWSAccessKeyId" accessId hnd
  have h2 := dictSet_perm _ _ "SignatureMethod" "HmacSHA256" h1 hnd1
  have hnd2 := nodup_keys_dictSet _ "SignatureMethod" "HmacSHA256" hnd1
  have h3 := dictSet_perm _ _ "Timestamp" timestamp h2 hnd2
  have hnd3 := nodup_keys_dictSet _ "Timestamp" timestamp hnd2
  exact ⟨h3, hnd3⟩

theorem sortedKeys_perm_eq (ps1 ps2 : List (String × String))
    (h : List.Perm ps1 ps2) : sortedKeys ps1 = sortedKeys ps2 := by
  rw [sortedKeys, sortedKeys]
  exact List.eq_of_perm_of_sorted
    ((List.perm_insertionSort _ _).trans
      ((h.map Prod.fst).trans (List.perm_insertionSort _ _).symm))
    (List.sorted_insertionSort _ _) (List.sorted_insertionSort _ _)

theorem sortedPairs_perm_eq (ps1 ps2 : List (String × String))
    (h : List.Perm ps1 ps2) (hnd : (ps1.map Prod.fst).Nodup) :
    sortedPairs ps1 = sortedPairs ps2 := by
  rw [sortedPairs, sortedPairs, sortedKeys_perm_eq ps1 ps2 h]
  apply List.map_congr_left
  intro k _
  rw [lookupStr_perm ps1 ps2 h hnd k]

/-- C2: the legacy (SignatureVersion 2) signature is the base64
HMAC-SHA256 digest, under the provider secret key, of the canonical
string `GET\n{host}\n/\n{sorted urlencoded params}` over the fully
assembled parameter mapping — and permuting the order in which the
parameters were supplied leaves the signature unchanged. -/
theorem legacy_signature_canonical_and_order_invariant (secret : Bytes)
    (endpoint timestamp accessId : String)
    (ps1 ps2 : List (String × String))
    (hnd : (ps1.map Prod.fst).Nodup) (hperm : List.Perm ps1 ps2) :
    legacyQuerySignature accessId secret endpoint timestamp ps1 =
      base64Encode (hmacSha256 secret (strBytes
        ("GET" ++ "\n" ++ endpoint ++ "\n" ++ "/" ++ "\n" ++
          urlencode (sortedPairs (legacyFullParams accessId timestamp ps1))))) ∧
    legacyQuerySignature accessId secret endpoint timestamp ps1 =
      legacyQuerySignature accessId secret endpoint timestamp ps2 := by
  constructor
  · rfl
  · obtain ⟨hp, hnd'⟩ :=
      legacyFullParams_perm accessId timestamp ps1 ps2 hperm hnd
    rw [legacyQuerySignature, legacyQuerySignature, legacySignature,
      legacySignature, legacyCanonical, legacyCanonical,
      sortedPairs_perm_eq _ _ hp hnd']

/-- Witness for `legacy_signature_canonical_and_order_invariant` on a
two-entry parameter dict supplied in both orders. -/
theorem legacy_signature_order_invariant_witness :
    ((([("Action", "DescribeInstances"), ("Version", "2014-10-01")] :
        List (String × String)).map Prod.fst).Nodup ∧
      List.Perm [("Action", "DescribeInstances"), ("Version", "2014-10-01")]
        [("Version", "2014-10-01"), ("Action", "DescribeInstances")]) ∧
    legacyQuerySignature "AKID" [1, 2, 3] "ec2.us-east-1.amazonaws.com"
        "2014-01-01T00:00:00Z"
        [("Action", "DescribeInstances"), ("Version", "2014-10-01")] =
      legacyQuerySignature "AKID" [1, 2, 3] "ec2.us-east-1.amazonaws.com"
        "2014-01-01T00:00:00Z"
        [("Version", "2014-10-01"), ("Action", "DescribeInstances")] :=
  ⟨⟨by decide, by decide⟩,
   (legacy_signature_canonical_and_order_invariant [1, 2, 3]
      "ec2.us-east-1.amazonaws.com" "2014-01-01T00:00:00Z" "AKID"
      [("Action", "DescribeInstances"), ("Version", "2014-10-01")]
      [("Version", "2014-10-01"), ("Action", "DescribeInstances")]
      (by decide) (by decide)).2⟩

theorem countTerminate_append (a b : List Request) :
    countTerminate (a ++ b) = countTerminate a + countTerminate b := by
  simp [countTerminate, List.filter_append]

theorem countTerminate_getNode (m : Nat) :
    countTerminate (getNodeRequests m) = 0 := by
  induction m with
  | zero => rfl
  | succ n ih =>
    have hfalse : (requestAction ([("Action", "DescribeInstances")] : Request)
        == some "TerminateInstances") = false := by decide
    rw [getNodeRequests, List.replicate_succ, countTerminate, List.filter_cons,
      hfalse]
    simp only [Bool.false_eq_true, if_false]
    exact ih

theorem countTerminate_nil : countTerminate [] = 0 := rfl

theorem countTerminate_cons (r : Request) (rest : List Request) :
    countTerminate (r :: rest) =
      (if requestAction r = some "TerminateInstances" then 1 else 0) +
        countTerminate rest := by
  by_cases h : requestAction r = some "TerminateInstances" <;>
    simp [countTerminate, List.filter_cons, h, Nat.add_comm]

theorem setTagsParams_action (iid : String) (tags : List (String × String)) :
    lookupStr (setTagsParams iid tags) "Action" = some "CreateTags" := by
  rw [setTagsParams,
    lookupStr_setTagsFold tags.enum "Action"
      (fun it _ => ⟨tag_ne_action _ _, tag_ne_action _ _⟩)]
  simp [lookupStr]

theorem getTagsParams_action (iid : String) :
    requestAction (getTagsParams iid) = some "DescribeTags" := by
  simp [getTagsParams, requestAction, lookupStr]

theorem describeAttr_action (iid : String) :
    requestAction (describeAttrRequest iid) =
      some "DescribeInstanceAttribute" := by
  simp [describeAttrRequest, requestAction, lookupStr]

theorem terminate_action (iid : String) :
    requestAction [("Action", "TerminateInstances"), ("InstanceId.1", iid)] =
      some "TerminateInstances" := by
  simp [requestAction, lookupStr]

theorem countTerminate_setTagsLoop (o : Oracle) (iid : String)
    (tags : List (String × String)) :
    ∀ fuel k, countTerminate (setTagsLoop o iid tags fuel k).1 = 0 := by
  intro fuel
  induction fuel with
  | zero => intro k; rfl
  | succ n ih =>
    intro k
    rw [setTagsLoop]
    have h1 : requestAction (setTagsParams iid tags) ≠
        some "TerminateInstances" := by
      rw [requestAction, setTagsParams_action]
      simp
    have h2 : requestAction (getTagsParams iid) ≠
        some "TerminateInstances" := by
      rw [getTagsParams_action]
      simp
    split
    · rw [countTerminate_cons, countTerminate_cons, if_neg h1, if_neg h2,
        ih (k + 2)]
    · rw [countTerminate_cons, countTerminate_cons, if_neg h1, if_neg h2]
      rfl

theorem countTerminate_attr (iid : String) :
    countTerminate [describeAttrRequest iid] = 0 := by
  rw [countTerminate_cons]
  rw [if_neg (by rw [describeAttr_action]; simp)]
  rfl

theorem countTerminate_term (iid : String) :
    countTerminate
      [[("Action", "TerminateInstances"), ("InstanceId.1", iid)]] = 1 := by
  rw [countTerminate_cons, if_pos (terminate_action iid)]
  rfl

/-- `destroy` when the protection attribute reads `'true'`: it stops
with the fatal error right after the attribute read. -/
theorem destroyModel_protected (o : Oracle) (iid name : String) (rod : Bool)
    (suffix : String) (lc rlc : Nat)
    (hprot : scanValueKey (o lc) = some "true") :
    destroyModel o iid name rod suffix lc rlc =
      (getNodeRequests lc ++ [describeAttrRequest iid], .error ()) := by
  rw [destroyModel]
  simp [hprot]

/-- `destroy` without protection and without the rename option: one
terminate request after the lookup and the attribute read. -/
theorem destroyModel_norename (o : Oracle) (iid name : String)
    (suffix : String) (lc rlc : Nat)
    (hprot : ¬scanValueKey (o lc) = some "true") :
    destroyModel o iid name false suffix lc rlc =
      (getNodeRequests lc ++ [describeAttrRequest iid] ++ [] ++
          [[("Action", "TerminateInstances"), ("InstanceId.1", iid)]],
        .ok (((o (lc + 1)).headD []).foldl
          (fun d p => dictSet d p.1 p.2) [])) := by
  rw [destroyModel]
  simp [hprot]

/-- `destroy` without protection, with the rename step: its outcome and
trace follow the `set_tags` loop's result. -/
theorem destroyModel_rename (o : Oracle) (iid name : String)
    (suffix : String) (lc rlc : Nat)
    (hprot : ¬scanValueKey (o lc) = some "true") :
    destroyModel o iid name true suffix lc rlc =
      (match (setTagsLoop o iid [("Name", name ++ "-DEL" ++ suffix)] 6
          (lc + 1 + rlc)).2.2 with
      | .error e =>
        (getNodeRequests lc ++ [describeAttrRequest iid] ++
            (getNodeRequests rlc ++
              (setTagsLoop o iid [("Name", name ++ "-DEL" ++ suffix)] 6
                (lc + 1 + rlc)).1),
          .error e)
      | .ok _ =>
        (getNodeRequests lc ++ [describeAttrRequest iid] ++
              (getNodeRequests rlc ++
                (setTagsLoop o iid [("Name", name ++ "-DEL" ++ suffix)] 6
                  (lc + 1 + rlc)).1) ++
            [[("Action", "TerminateInstances"), ("InstanceId.1", iid)]],
          .ok (((o ((setTagsLoop o iid
              [("Name", name ++ "-DEL" ++ suffix)] 6
              (lc + 1 + rlc)).2.1)).headD []).foldl
            (fun d p => dictSet d p.1 p.2)
            [("newname", name ++ "-DEL" ++ suffix)]))) := by
  rw [destroyModel]
  simp only [hprot, if_false, if_true, if_neg, ite_true, ite_false,
    Bool.true_eq_false]

/-- C5: for an instance whose termination-protection attribute reads
`'true'`, `destroy` raises fatally before and instead of issuing any
`TerminateInstances` request; with protection disabled it issues exactly
one `TerminateInstances` request whenever it completes (and with the
rename-on-destroy option off it always completes). -/
theorem destroy_respects_termination_protection (o : Oracle)
    (instanceId name : String) (renameOnDestroy : Bool) (newSuffix : String)
    (lookupCount renameLookupCount : Nat) :
    (scanValueKey (o lookupCount) = some "true" →
      (destroyModel o instanceId name renameOnDestroy newSuffix lookupCount
          renameLookupCount).2 = .error () ∧
      countTerminate (destroyModel o instanceId name renameOnDestroy newSuffix
          lookupCount renameLookupCount).1 = 0) ∧
    (scanValueKey (o lookupCount) ≠ some "true" →
      (∀ ret, (destroyModel o instanceId name renameOnDestroy newSuffix
          lookupCount renameLookupCount).2 = .ok ret →
        countTerminate (destroyModel o instanceId name renameOnDestroy
            newSuffix lookupCount renameLookupCount).1 = 1) ∧
      (renameOnDestroy = false →
        countTerminate (destroyModel o instanceId name renameOnDestroy
            newSuffix lookupCount renameLookupCount).1 = 1 ∧
        ∃ ret, (destroyModel o instanceId name renameOnDestroy newSuffix
            lookupCount renameLookupCount).2 = .ok ret)) := by
  constructor
  · intro hprot
    rw [destroyModel_protected o instanceId name renameOnDestroy newSuffix
      lookupCount renameLookupCount hprot]
    refine ⟨rfl, ?_⟩
    rw [countTerminate_append, countTerminate_getNode, countTerminate_attr]
  · intro hprot
    cases renameOnDestroy with
    | false =>
      rw [destroyModel_norename o instanceId name newSuffix lookupCount
        renameLookupCount hprot]
      have hcount : countTerminate
          (getNodeRequests lookupCount ++ [describeAttrRequest instanceId] ++
            [] ++
            [[("Action", "TerminateInstances"),
              ("InstanceId.1", instanceId)]]) = 1 := by
        rw [countTerminate_append, countTerminate_append,
          countTerminate_append, countTerminate_getNode,
          countTerminate_attr, countTerminate_term]
        rfl
      exact ⟨fun ret _ => hcount, fun _ => ⟨hcount, _, rfl⟩⟩
    | true =>
      rw [destroyModel_rename o instanceId name newSuffix lookupCount
        renameLookupCount hprot]
      constructor
      · intro ret hret
        split
        · rename_i e heq
          rw [heq] at hret
          simp at hret
        · have hda : requestAction (describeAttrRequest instanceId) ≠
              some "TerminateInstances" := by
            rw [describeAttr_action]
            simp
          simp [countTerminate_cons, countTerminate_append, hda,
            countTerminate_getNode, countTerminate_attr,
            countTerminate_setTagsLoop, countTerminate_term,
            terminate_action, countTerminate_nil]
      · intro hfalse
        exact absurd hfalse (by simp)

/-- Witness for `destroy_respects_termination_protection`: a concrete
oracle whose attribute read reports protection enabled. -/
theorem destroy_term_protect_witness :
    scanValueKey ((fun _ => [[("value", "true")]] : Oracle) 0) = some "true" ∧
    (destroyModel (fun _ => [[("value", "true")]]) "i-1" "vm" false "x" 0
        0).2 = .error () :=
  ⟨by decide,
   ((destroy_respects_termination_protection (fun _ => [[("value", "true")]])
      "i-1" "vm" false "x" 0 0).1 (by decide)).1⟩

theorem xmlToDict_isMap (t : XmlTree) : ∃ d, xmlToDict t = Node.map d := by
  match t with
  | .node tag text [] => exact ⟨_, rfl⟩
  | .node tag text (c :: cs) => exact ⟨_, rfl⟩

theorem appendNode_childDecode (t : XmlTree) (new : Node) :
    appendNode (childDecode t) new = Node.list [childDecode t, new] := by
  rw [childDecode]
  split
  · rfl
  · obtain ⟨d, hd⟩ := xmlToDict_isMap t
    rw [hd]
    rfl

theorem actualVal_snoc (os : List XmlTree) (t : XmlTree) (h : os ≠ []) :
    appendNode (actualVal os) (xmlToDict t) = actualVal (os ++ [t]) := by
  match os with
  | [] => exact absurd rfl h
  | [o] =>
    rw [show actualVal [o] = childDecode o from rfl,
      appendNode_childDecode]
    rfl
  | o :: r :: rest =>
    rw [show actualVal (o :: r :: rest) =
        Node.list (childDecode o :: (r :: rest).map xmlToDict) from rfl]
    rw [show (o :: r :: rest) ++ [t] = o :: ((r :: rest) ++ [t]) from rfl]
    rw [appendNode]
    rw [show actualVal (o :: (r :: rest ++ [t])) =
        Node.list (childDecode o :: (r :: rest ++ [t]).map xmlToDict) from rfl]
    simp

theorem contains_iff_mem (l : List String) (x : String) :
    l.contains x = true ↔ x ∈ l := by
  simp

theorem mem_firstKeysGo (x : String) :
    ∀ (l seen : List String), x ∈ firstKeysGo seen l ↔ x ∈ l ∧ x ∉ seen := by
  intro l
  induction l with
  | nil => intro seen; simp [firstKeysGo]
  | cons k rest ih =>
    intro seen
    rw [firstKeysGo]
    split
    · rename_i hk
      rw [contains_iff_mem] at hk
      rw [ih seen]
      constructor
      · rintro ⟨hm, hs⟩
        exact ⟨List.mem_cons_of_mem _ hm, hs⟩
      · rintro ⟨hm, hs⟩
        rcases List.mem_cons.mp hm with rfl | hm
        · exact absurd hk hs
        · exact ⟨hm, hs⟩
    · rename_i hk
      rw [contains_iff_mem] at hk
      rw [List.mem_cons, ih (seen ++ [k])]
      constructor
      · rintro (rfl | ⟨hm, hs⟩)
        · exact ⟨List.mem_cons_self _ _, hk⟩
        · simp only [List.mem_append, List.mem_singleton] at hs
          push_neg at hs
          exact ⟨List.mem_cons_of_mem _ hm, hs.1⟩
      · rintro ⟨hm, hs⟩
        rcases List.mem_cons.mp hm with rfl | hm
        · exact Or.inl rfl
        · by_cases hxk : x = k
          · exact Or.inl hxk
          · refine Or.inr ⟨hm, ?_⟩
            simp [List.mem_append, hs, hxk]

theorem mem_firstKeys (x : String) (l : List String) :
    x ∈ firstKeys l ↔ x ∈ l := by
  rw [firstKeys, mem_firstKeysGo]
  simp

theorem firstKeysGo_append_singleton (k : String) :
    ∀ (l seen : List String),
      firstKeysGo seen (l ++ [k]) =
        firstKeysGo seen l ++ (if k ∈ seen ∨ k ∈ l then [] else [k]) := by
  intro l
  induction l with
  | nil =>
    intro seen
    simp only [List.nil_append, firstKeysGo]
    split
    · rename_i hk
      rw [contains_iff_mem] at hk
      simp [firstKeysGo, hk]
    · rename_i hk
      rw [contains_iff_mem] at hk
      simp [firstKeysGo, hk]
  | cons k' rest ih =>
    intro seen
    rw [List.cons_append, firstKeysGo, firstKeysGo]
    split
    · rename_i hk'
      rw [contains_iff_mem] at hk'
      rw [ih seen]
      congr 1
      by_cases hm : k ∈ seen ∨ k ∈ rest
      · rw [if_pos hm, if_pos ?hc1]
        case hc1 =>
          rcases hm with h | h
          · exact Or.inl h
          · exact Or.inr (List.mem_cons_of_mem _ h)
      · rw [if_neg hm]
        push_neg at hm
        rw [if_neg ?hcond]
        case hcond =>
          rintro (h | h)
          · exact hm.1 h
          · rcases List.mem_cons.mp h with rfl | h
            · exact hm.1 hk'
            · exact hm.2 h
    · rename_i hk'
      rw [contains_iff_mem] at hk'
      rw [ih (seen ++ [k'])]
      rw [List.cons_append]
      congr 1
      by_cases hm : k ∈ seen ++ [k'] ∨ k ∈ rest
      · rw [if_pos hm]
        rw [if_pos ?hc2]
        case hc2 =>
          rcases hm with h | h
          · rcases List.mem_append.mp h with h | h
            · exact Or.inl h
            · simp only [List.mem_singleton] at h
              exact Or.inr (h ▸ List.mem_cons_self _ _)
          · exact Or.inr (List.mem_cons_of_mem _ h)
      · rw [if_neg hm]
        push_neg at hm
        rw [if_neg ?hc3]
        case hc3 =>
          rintro (h | h)
          · exact hm.1 (List.mem_append.mpr (Or.inl h))
          · rcases List.mem_cons.mp h with rfl | h
            · exact hm.1 (List.mem_append.mpr (Or.inr (by simp)))
            · exact hm.2 h

theorem firstKeys_append_singleton (l : List String) (k : String) :
    firstKeys (l ++ [k]) =
      firstKeys l ++ (if k ∈ l then [] else [k]) := by
  rw [firstKeys, firstKeysGo_append_singleton, firstKeys]
  simp

theorem lookupNode_keyedMap (ks : List String) (f : String → Node)
    (name : String) :
    lookupNode (ks.map (fun k => (k, f k))) name =
      if name ∈ ks then some (f name) else none := by
  induction ks with
  | nil => simp [lookupNode]
  | cons k rest ih =>
    rw [List.map_cons, lookupNode]
    by_cases hk : k = name
    · subst hk
      simp
    · rw [if_neg hk, ih]
      by_cases hm : name ∈ rest
      · rw [if_pos hm, if_pos (List.mem_cons_of_mem _ hm)]
      · rw [if_neg hm, if_neg ?hc]
        case hc =>
          intro h
          rcases List.mem_cons.mp h with rfl | h
          · exact hk rfl
          · exact hm h

theorem updateNode_keyedMap (ks : List String) (f : String → Node)
    (name : String) (v : Node) :
    updateNode (ks.map (fun k => (k, f k))) name v =
      ks.map (fun k => if k = name then (name, v) else (k, f k)) := by
  rw [updateNode, List.map_map]
  apply List.map_congr_left
  intro k _
  by_cases hk : k = name <;> simp [Function.comp, hk]

theorem occs_append_singleton (k : String) (p : List XmlTree) (item : XmlTree) :
    occs k (p ++ [item]) =
      occs k p ++ (if stripNs item.tag = k then [item] else []) := by
  rw [occs, List.filter_append, occs]
  congr 1
  by_cases hit : stripNs item.tag = k
  · simp [List.filter, hit]
  · have hb : (stripNs item.tag == k) = false := by
      simpa using hit
    simp [List.filter, hb, hit]

theorem occs_eq_nil_of_not_mem (k : String) (p : List XmlTree)
    (h : k ∉ stripTags p) : occs k p = [] := by
  rw [occs, List.filter_eq_nil_iff]
  intro t ht
  intro hb
  apply h
  rw [stripTags, List.mem_map]
  exact ⟨t, ht, by simpa using hb⟩

theorem occs_ne_nil_of_mem (k : String) (p : List XmlTree)
    (h : k ∈ stripTags p) : occs k p ≠ [] := by
  rw [stripTags, List.mem_map] at h
  obtain ⟨t, ht, he⟩ := h
  intro hnil
  rw [occs, List.filter_eq_nil_iff] at hnil
  exact hnil t ht (by simpa using he)

theorem stripTags_append_singleton (p : List XmlTree) (item : XmlTree) :
    stripTags (p ++ [item]) = stripTags p ++ [stripNs item.tag] := by
  simp [stripTags]

/-- One step of the `_xml_to_dict` child fold, on a dict already in the
characterized shape: it stays in that shape with the item appended. -/
theorem actualDict_snoc (p : List XmlTree) (item : XmlTree) :
    (match lookupNode (actualDict p) (stripNs item.tag) with
      | none => actualDict p ++ [(stripNs item.tag,
          if item.children.isEmpty then Node.text item.txt else xmlToDict item)]
      | some old => updateNode (actualDict p) (stripNs item.tag)
          (appendNode old (xmlToDict item))) = actualDict (p ++ [item]) := by
  have hmap : actualDict p =
      (firstKeys (stripTags p)).map (fun k => (k, actualVal (occs k p))) := rfl
  split
  · rename_i hnone
    rw [hmap, lookupNode_keyedMap] at hnone
    have hm : stripNs item.tag ∉ stripTags p := by
      intro h
      rw [if_pos ((mem_firstKeys _ _).mpr h)] at hnone
      exact Option.noConfusion hnone
    rw [hmap, actualDict, stripTags_append_singleton,
      firstKeys_append_singleton, if_neg hm, List.map_append]
    congr 1
    · apply List.map_congr_left
      intro k hk
      have hk' : k ∈ stripTags p := (mem_firstKeys _ _).mp hk
      have hkn : ¬stripNs item.tag = k := fun h => hm (h ▸ hk')
      rw [occs_append_singleton, if_neg hkn, List.append_nil]
    · rw [List.map_cons, List.map_nil]
      rw [occs_append_singleton, if_pos rfl, occs_eq_nil_of_not_mem _ _ hm,
        List.nil_append]
      rw [show actualVal [item] = childDecode item from rfl, childDecode]
  · rename_i old hsome
    rw [hmap, lookupNode_keyedMap] at hsome
    have hm : stripNs item.tag ∈ stripTags p := by
      by_contra hc
      rw [if_neg (fun h => hc ((mem_firstKeys _ _).mp h))] at hsome
      exact Option.noConfusion hsome
    rw [if_pos ((mem_firstKeys _ _).mpr hm)] at hsome
    have hold : old = actualVal (occs (stripNs item.tag) p) :=
      (Option.some.injEq _ _ ▸ hsome).symm
    subst hold
    rw [hmap, updateNode_keyedMap]
    rw [actualDict, stripTags_append_singleton, firstKeys_append_singleton,
      if_pos hm, List.append_nil]
    apply List.map_congr_left
    intro k hk
    by_cases hkn : k = stripNs item.tag
    · subst hkn
      rw [if_pos rfl, occs_append_singleton, if_pos rfl,
        ← actualVal_snoc _ _ (occs_ne_nil_of_mem _ p hm)]
    · rw [if_neg hkn, occs_append_singleton,
        if_neg (fun h => hkn h.symm), List.append_nil]

theorem actualDict_snoc_none (p : List XmlTree) (item : XmlTree)
    (h : lookupNode (actualDict p) (stripNs item.tag) = none) :
    actualDict p ++ [(stripNs item.tag,
        if item.children.isEmpty then Node.text item.txt else xmlToDict item)] =
      actualDict (p ++ [item]) := by
  have hs := actualDict_snoc p item
  rw [h] at hs
  simpa using hs

theorem actualDict_snoc_some (p : List XmlTree) (item : XmlTree) (old : Node)
    (h : lookupNode (actualDict p) (stripNs item.tag) = some old) :
    updateNode (actualDict p) (stripNs item.tag)
        (appendNode old (xmlToDict item)) =
      actualDict (p ++ [item]) := by
  have hs := actualDict_snoc p item
  rw [h] at hs
  simpa using hs

theorem xmlFold_actualDict :
    ∀ (items p : List XmlTree),
      xmlFold (actualDict p) items = actualDict (p ++ items) := by
  intro items
  induction items with
  | nil => intro p; rw [xmlFold, List.append_nil]
  | cons item rest ih =>
    intro p
    rw [xmlFold]
    split
    · rename_i h
      show xmlFold (actualDict p ++ [(stripNs item.tag,
        if item.children.isEmpty then Node.text item.txt
        else xmlToDict item)]) rest = actualDict (p ++ item :: rest)
      rw [actualDict_snoc_none p item h, ih (p ++ [item]),
        List.append_assoc, List.singleton_append]
    · rename_i old h
      rw [actualDict_snoc_some p item old h, ih (p ++ [item]),
        List.append_assoc, List.singleton_append]

/-- C3 (counterexample): on two repeated *leaf* children `<a>1</a>
<a>2</a>`, `_xml_to_dict` does not collect the decoded value of every
occurrence: the first occurrence is stored as its text but the second
as the one-key dict `{'a': '2'}`, so the result differs from the
claim's `{'a': ['1', '2']}` shape. -/
theorem xml_repeated_leaf_counterexample :
    (XmlTree.node "r" none [.node "a" (some "1") [],
      .node "a" (some "2") []]).children ≠ [] ∧
    xmlToDict (XmlTree.node "r" none
        [.node "a" (some "1") [], .node "a" (some "2") []]) ≠
      Node.map (claimedDict [XmlTree.node "a" (some "1") [],
        XmlTree.node "a" (some "2") []]) ∧
    Node.map (claimedDict [XmlTree.node "a" (some "1") [],
        XmlTree.node "a" (some "2") []]) =
      Node.map [("a", Node.list [Node.text (some "1"),
        Node.text (some "2")])] ∧
    xmlToDict (XmlTree.node "r" none
        [.node "a" (some "1") [], .node "a" (some "2") []]) =
      Node.map [("a", Node.list [Node.text (some "1"),
        Node.map [("a", Node.text (some "2"))]])] := by
  refine ⟨?_, by decide, by decide, by decide⟩
  simp [XmlTree.children]

/-- C3 (amended): for every element with at least one child, decoding
yields the mapping keyed by namespace-stripped child tag in
first-occurrence order, where a tag occurring exactly once maps to a
scalar (leaf text or a mapping, never wrapped in a sequence) and a tag
occurring two or more times maps to a sequence whose length equals the
occurrence count in document order — collecting the first occurrence as
its child-decoded value but every *later* occurrence as the full
top-level decode, which wraps a leaf in a one-key mapping. -/
theorem xml_to_dict_characterization (tag : String) (text : Option String)
    (c : XmlTree) (cs : List XmlTree) :
    xmlToDict (XmlTree.node tag text (c :: cs)) =
      Node.map (actualDict (c :: cs)) := by
  rw [xmlToDict]
  have h := xmlFold_actualDict (c :: cs) []
  simpa using h

end EC2
